import Mathlib

/-!
Verification of the Confucius agent orchestration core
(`src/confucius_agent`: orchestrator.py, ralph_integration.py, extensions.py,
subagent_extension.py, notes.py) against its natural-language specification.

The Python code is shallowly embedded: strings are `String`/`List Char`,
Python string operations (`strip`, `split`, `replace`, substring tests,
the specific regular expressions used by the parser) are modelled as
executable Lean functions, the mutable objects (`MemoryManager`,
`SubagentExtension` state) become explicit state passing, and effectful
boundaries (subprocess runs, the file system, the sub-orchestrator run
inside `SubagentExtension`) are parameters describing the outcome of the
effect.  Wall-clock timing (`time.time()`, `time.sleep`) and file-system
note persistence are outside the model; no claim depends on them.
-/

namespace Confucius

/-! ### Python string primitives -/

/-- The characters stripped by Python `str.strip()` and matched by `\s`
(ASCII range): space, tab, newline, carriage return, vertical tab, form feed. -/
def isPySpace (c : Char) : Bool :=
  c = ' ' || c = '\t' || c = '\n' || c = '\x0d' || c = Char.ofNat 11 || c = Char.ofNat 12

/-- ASCII lowercasing, as Python `str.lower()` acts on ASCII text. -/
def lowerChar (c : Char) : Char :=
  if 'A' ≤ c ∧ c ≤ 'Z' then Char.ofNat (c.toNat + 32) else c

/-- Python `s.lower()` on a character list. -/
def pyLowerL (s : List Char) : List Char := s.map lowerChar

/-- Python `s.strip()` on a character list. -/
def pyStripL (s : List Char) : List Char :=
  ((s.dropWhile isPySpace).reverse.dropWhile isPySpace).reverse

/-- Split a list at the first occurrence of the pattern `p`: returns
`some (before, after)` where `s = before ++ p ++ after` and `before` holds no
earlier occurrence, or `none` when `p` does not occur in `s`. -/
def splitFirst (p : List Char) : List Char → Option (List Char × List Char)
  | [] => if p = [] then some ([], []) else none
  | c :: t =>
    if p <+: (c :: t) then some ([], (c :: t).drop p.length)
    else
      match splitFirst p t with
      | some (pre, post) => some (c :: pre, post)
      | none => none

/-- Fuelled worker for Python `str.split(sep)`. -/
def pySplitF (p : List Char) : Nat → List Char → List (List Char)
  | 0, s => [s]
  | f + 1, s =>
    match splitFirst p s with
    | none => [s]
    | some (pre, post) => pre :: pySplitF p f post

/-- Python `s.split(sep)` for a non-empty separator. -/
def pySplitL (p s : List Char) : List (List Char) := pySplitF p (s.length + 1) s

/-- Fuelled worker for Python `str.replace(old, new)`. -/
def pyReplaceF (old new : List Char) : Nat → List Char → List Char
  | 0, s => s
  | f + 1, s =>
    match splitFirst old s with
    | none => s
    | some (pre, post) => pre ++ new ++ pyReplaceF old new f post

/-- Python `s.replace(old, new)`: every non-overlapping occurrence, left to
right, is replaced. -/
def pyReplaceL (old new s : List Char) : List Char := pyReplaceF old new (s.length + 1) s

/-- Python `sub in s` (substring test), as a Bool. -/
def containsL (s sub : List Char) : Bool := decide (sub <:+: s)

/-- Python `s.startswith(p)`, as a Bool. -/
def startsWithL (s p : List Char) : Bool := decide (p <+: s)

/-- String-level wrapper: Python `sub in s`. -/
def pyContains (s sub : String) : Bool := containsL s.data sub.data

/-- String-level wrapper: Python `s.strip()`. -/
def pyStrip (s : String) : String := ⟨pyStripL s.data⟩

/-- String-level wrapper: Python `s.lower()`. -/
def pyLower (s : String) : String := ⟨pyLowerL s.data⟩

/-- String-level wrapper: Python `s.replace(old, new)`. -/
def pyReplace (s old new : String) : String := ⟨pyReplaceL old.data new.data s.data⟩

/-- Python `s[:n]` on a string (character slicing). -/
def pyTake (n : Nat) (s : String) : String := ⟨s.data.take n⟩

/-- Python `sep.join(parts)`. -/
def pyJoin (sep : String) : List String → String
  | [] => ""
  | [t] => t
  | t :: ts => t ++ sep ++ pyJoin sep ts

/-- Python `'\n'.split`-style line splitting: `s.split('\n')`. -/
def splitLinesL : List Char → List (List Char)
  | [] => [[]]
  | c :: t =>
    if c = '\n' then [] :: splitLinesL t
    else
      match splitLinesL t with
      | [] => [[c]]
      | l :: ls => (c :: l) :: ls

/-! ### Regular-expression scanners

`re.finditer` for the fixed patterns of the source, modelled directly.
For a pattern `<tag>(.*?)</tag>` with `re.DOTALL`, the matcher finds the
first occurrence of the opening literal, then the body runs lazily to the
first occurrence of the closing literal, and scanning resumes after it.
-/

/-- Fuelled worker for `scanSpans`. -/
def scanSpansF (ob cb : List Char) : Nat → List Char → List (List Char)
  | 0, _ => []
  | f + 1, s =>
    match splitFirst ob s with
    | none => []
    | some (_, r1) =>
      match splitFirst cb r1 with
      | none => []
      | some (body, r2) => body :: scanSpansF ob cb f r2

/-- All (group 1) bodies of `re.finditer(r'<tag>(.*?)</tag>', s, re.DOTALL)`
where `ob`/`cb` are the opening/closing literal tags. -/
def scanSpans (ob cb s : List Char) : List (List Char) := scanSpansF ob cb s.length s

/-- One match of an attribute-carrying tag pattern such as
`<subagent\s+name="([^"]+)">(.*?)</subagent>`: attribute value, body, the
full matched text (`group(0)`), and the remainder of the input. -/
structure AttrMatch where
  attr : List Char
  body : List Char
  g0 : List Char
  deriving Repr, DecidableEq

/-- Attempt the header `openLit \s+ attrLit ([^"]+) ">` at the start of `s`;
on success return the attribute value and the remainder after `">`, plus the
consumed text.  Mirrors the backtracking-free behaviour of the greedy `\s+`
and `[^"]+` in these patterns (the character after a maximal run can never
re-satisfy the run's class). -/
def attrHeadAt (openLit attrLit : List Char) (s : List Char) :
    Option (List Char × List Char × List Char) :=
  if openLit <+: s then
    let r1 := s.drop openLit.length
    let ws := r1.takeWhile isPySpace
    if ws = [] then none
    else
      let r2 := r1.drop ws.length
      if attrLit <+: r2 then
        let r3 := r2.drop attrLit.length
        let v := r3.takeWhile (fun c => c ≠ '"')
        if v = [] then none
        else
          let r4 := r3.drop v.length
          if ('"' :: '>' :: []) <+: r4 then
            let r5 := r4.drop 2
            some (v, r5, openLit ++ ws ++ attrLit ++ v ++ ['"', '>'])
          else none
      else none
  else none

/-- Fuelled worker for `scanAttrSpans`. -/
def scanAttrSpansF (openLit attrLit cb : List Char) : Nat → List Char → List AttrMatch
  | 0, _ => []
  | f + 1, s =>
    match attrHeadAt openLit attrLit s with
    | some (v, afterHead, headTxt) =>
      match splitFirst cb afterHead with
      | none => []
      | some (body, r2) =>
        { attr := v, body := body, g0 := headTxt ++ body ++ cb } :: scanAttrSpansF openLit attrLit cb f r2
    | none =>
      match s with
      | [] => []
      | _ :: t => scanAttrSpansF openLit attrLit cb f t

/-- `re.finditer` for `openLit\s+attrLit([^"]+)">(.*?)cb` (e.g. the
`<file_edit path="...">...</file_edit>` and `<subagent name="...">...</subagent>`
patterns). -/
def scanAttrSpans (openLit attrLit cb s : List Char) : List AttrMatch :=
  scanAttrSpansF openLit attrLit cb s.length s

/-- Fuelled worker for `scanAttrHeads`. -/
def scanAttrHeadsF (openLit attrLit : List Char) : Nat → List Char → List (List Char)
  | 0, _ => []
  | f + 1, s =>
    match attrHeadAt openLit attrLit s with
    | some (v, afterHead, _) => v :: scanAttrHeadsF openLit attrLit f afterHead
    | none =>
      match s with
      | [] => []
      | _ :: t => scanAttrHeadsF openLit attrLit f t

/-- `re.finditer` for the body-less pattern `openLit\s+attrLit([^"]+)">`
(the `<search pattern="...">` pattern): the attribute values in order. -/
def scanAttrHeads (openLit attrLit s : List Char) : List (List Char) :=
  scanAttrHeadsF openLit attrLit s.length s

/-! ### Data model (orchestrator.py) -/

/-- `ActionType` (orchestrator.py): the closed enum of action kinds. -/
inductive ActionType where
  | bashCommand
  | fileEdit
  | fileRead
  | fileSearch
  | thinking
  | completion
  deriving Repr, DecidableEq

/-- Python `str(ActionType.X)`, as interpolated by
`f"No extension found to handle {action.type}"`. -/
def ActionType.pyStr : ActionType → String
  | .bashCommand => "ActionType.BASH_COMMAND"
  | .fileEdit => "ActionType.FILE_EDIT"
  | .fileRead => "ActionType.FILE_READ"
  | .fileSearch => "ActionType.FILE_SEARCH"
  | .thinking => "ActionType.THINKING"
  | .completion => "ActionType.COMPLETION"

/-- A value stored in a Python metadata dict (only the shapes the core
actually stores). -/
inductive MVal where
  | b : Bool → MVal
  | n : Nat → MVal
  | s : String → MVal
  deriving Repr, DecidableEq

/-- `Action` (orchestrator.py): one parsed directive. -/
structure Action where
  type : ActionType
  content : String
  metadata : List (String × MVal) := []
  result : Option String := none
  error : Option String := none
  deriving Repr, DecidableEq

/-- `Message` (orchestrator.py): one conversation turn. -/
structure Message where
  role : String
  content : String
  metadata : List (String × MVal) := []
  compressed : Bool := false
  deriving Repr, DecidableEq

/-! ### MemoryManager (orchestrator.py) -/

/-- `MemoryManager` state.  The compression threshold is a rational so the
comparison `estimate > max_tokens * threshold` is exact; every concrete
instance used below picks a threshold whose float evaluation agrees.  The
three-scope hierarchy is carried but never written by the core loop. -/
structure MemoryManager where
  messages : List Message := []
  maxTokens : Nat := 100000
  compressionThreshold : ℚ := 4 / 5
  hierarchy : List (String × List (String × MVal)) := [("session", []), ("entry", []), ("runnable", [])]
  deriving Repr, DecidableEq

namespace MemoryManager

/-- `MemoryManager._estimate_tokens`: total characters divided by 4. -/
def estimateTokens (mm : MemoryManager) : Nat :=
  (mm.messages.map (fun m => m.content.length)).sum / 4

/-- `MemoryManager._create_summary`: heuristic text extraction. -/
def createSummary (msgs : List Message) : String :=
  let actionsTaken := (msgs.filter (fun m =>
      m.role = "assistant" ∧
        (containsL (pyLowerL m.content.data) "bash".data ∨
          containsL (pyLowerL m.content.data) "file".data))).map
    (fun m => pyTake 200 m.content)
  let errs := (msgs.filter (fun m =>
      containsL (pyLowerL m.content.data) "error".data ∨
        containsL (pyLowerL m.content.data) "failed".data)).map
    (fun m => pyTake 150 m.content)
  let s1 := "## Session Summary\n\n"
  let s2 := if actionsTaken ≠ [] then
      s1 ++ "### Actions Taken:\n" ++
        pyJoin "\n" ((actionsTaken.take 5).map (fun a => "- " ++ a)) ++ "\n\n"
    else s1
  if errs ≠ [] then
    s2 ++ "### Errors Encountered:\n" ++
      pyJoin "\n" ((errs.take 3).map (fun e => "- " ++ e)) ++ "\n\n"
  else s2

/-- The synthetic compressed message `_compress_history` builds from the
older messages. -/
def summaryMessage (older : List Message) : Message :=
  { role := "assistant"
    content := "[COMPRESSED CONTEXT]\n" ++ createSummary older
    metadata := [("compressed", .b true), ("original_count", .n older.length)]
    compressed := true }

/-- `MemoryManager._compress_history`: keep the last 5 messages, collapse the
rest into one synthetic message at the front; a no-op below 10 messages. -/
def compressHistory (mm : MemoryManager) : MemoryManager :=
  if mm.messages.length < 10 then mm
  else
    let recent := mm.messages.drop (mm.messages.length - 5)
    let older := mm.messages.take (mm.messages.length - 5)
    { mm with messages := summaryMessage older :: recent }

/-- `MemoryManager.add_message`: append, then compress when the token
estimate exceeds `max_tokens * compression_threshold`. -/
def addMessage (mm : MemoryManager) (role content : String)
    (metadata : List (String × MVal) := []) : MemoryManager :=
  let mm' := { mm with
    messages := mm.messages ++ [{ role := role, content := content, metadata := metadata }] }
  if (mm'.maxTokens : ℚ) * mm'.compressionThreshold < (estimateTokens mm' : ℚ) then
    compressHistory mm'
  else mm'

end MemoryManager

/-! ### Action parsing and completion checks (Orchestrator) -/

/-- The three completion phrases scanned by `_parse_actions`. -/
def parserCompletionPhrases : List String := ["task complete", "finished", "done with task"]

/-- The four completion signals scanned by `_check_completion`. -/
def completionSignals : List String :=
  ["task complete", "finished successfully", "done with all steps", "no further actions needed"]

/-- `Orchestrator._parse_actions`, bash component:
`<bash>(.*?)</bash>` matches, stripped, as `BASH_COMMAND` actions. -/
def bashActions (output : String) : List Action :=
  (scanSpans "<bash>".data "</bash>".data output.data).map
    (fun m => { type := .bashCommand, content := ⟨pyStripL m⟩ })

/-- `_parse_actions`, file-edit component:
`<file_edit\s+path="([^"]+)">(.*?)</file_edit>` matches with a `path`
metadata entry. -/
def fileEditActions (output : String) : List Action :=
  (scanAttrSpans "<file_edit".data "path=\"".data "</file_edit>".data output.data).map
    (fun m => { type := .fileEdit, content := ⟨pyStripL m.body⟩,
                metadata := [("path", .s ⟨m.attr⟩)] })

/-- `_parse_actions`, file-read component: `<file_read>(.*?)</file_read>`. -/
def fileReadActions (output : String) : List Action :=
  (scanSpans "<file_read>".data "</file_read>".data output.data).map
    (fun m => { type := .fileRead, content := ⟨pyStripL m⟩ })

/-- `_parse_actions`, search component: `<search\s+pattern="([^"]+)">`;
the pattern is group 1, so the action content is the stripped pattern. -/
def fileSearchActions (output : String) : List Action :=
  (scanAttrHeads "<search".data "pattern=\"".data output.data).map
    (fun m => { type := .fileSearch, content := ⟨pyStripL m⟩ })

/-- `_parse_actions`, thinking component: `<thinking>(.*?)</thinking>`. -/
def thinkingActions (output : String) : List Action :=
  (scanSpans "<thinking>".data "</thinking>".data output.data).map
    (fun m => { type := .thinking, content := ⟨pyStripL m⟩ })

/-- The completion-phrase scan at the end of `_parse_actions`. -/
def hasParserCompletionPhrase (output : String) : Bool :=
  parserCompletionPhrases.any (fun p => containsL (pyLowerL output.data) p.data)

/-- `Orchestrator._parse_actions`: tag patterns in dict insertion order, then
the synthetic `COMPLETION` action when a completion phrase occurs. -/
def parseActions (output : String) : List Action :=
  (bashActions output ++ fileEditActions output ++ fileReadActions output ++
      fileSearchActions output ++ thinkingActions output) ++
    (if hasParserCompletionPhrase output then
      [{ type := .completion, content := output }]
    else [])

/-- `Orchestrator._check_completion`: its own four-signal scan. -/
def checkCompletion (output : String) : Bool :=
  completionSignals.any (fun sig => containsL (pyLowerL output.data) sig.data)

/-! ### Extension dispatch and the orchestration loop (Orchestrator) -/

/-- A configured `Extension` as the dispatch loop sees it: its name, its
`can_handle` predicate, its `execute` action transformer, and its two hook
functions.  Stateless extensions fit this directly; the stateful
`SubagentExtension` is modelled separately below. -/
structure ExtModel where
  name : String := ""
  canHandle : Action → Bool := fun _ => false
  exec : Action → Action := id
  onInputMessages : List Message → List Message := id
  onLlmOutput : String → String := id

/-- `Orchestrator._execute_action`: first extension whose `can_handle`
answers true executes the action; otherwise the action's `error` is set to
the no-handler message and nothing executes. -/
def executeAction : List ExtModel → Action → Action
  | [], a => { a with error := some ("No extension found to handle " ++ a.type.pyStr) }
  | e :: es, a => if e.canHandle a then e.exec a else executeAction es a

/-- A `{role, content}` pair as handed to the LLM callback. -/
structure FMsg where
  role : String
  content : String
  deriving Repr, DecidableEq

/-- The result dict of `Orchestrator.run`. -/
structure RunResult where
  success : Bool
  iterations : Nat
  finalOutput : String
  actions : List (ActionType × Bool)
  deriving Repr, DecidableEq

/-- `Orchestrator._prepare_messages`: input hooks in registration order,
then formatting with the optional system prompt first. -/
def prepareMessages (exts : List ExtModel) (systemPrompt : String)
    (msgs : List Message) : List FMsg :=
  let hooked := exts.foldl (fun ms e => e.onInputMessages ms) msgs
  (if systemPrompt ≠ "" then [{ role := "system", content := systemPrompt }] else []) ++
    hooked.map (fun m => { role := m.role, content := m.content })

/-- Python truthiness of an optional string (`if executed.result:`). -/
def truthy : Option String → Bool
  | some s => s ≠ ""
  | none => false

/-- The per-action body of `Orchestrator.run` steps 5-12: dispatch, record
`(type, error is None)`, feed `<result>`/`<error>` back into memory, and stop
early after a `COMPLETION` action (returning `(true, its content)`). -/
def processActions (exts : List ExtModel) :
    List Action → MemoryManager → List (ActionType × Bool) →
      List (ActionType × Bool) × MemoryManager × Bool × String
  | [], mm, acc => (acc, mm, false, "")
  | a :: rest, mm, acc =>
    let ex := executeAction exts a
    let acc' := acc ++ [(a.type, ex.error.isNone)]
    let mm' :=
      if truthy ex.result then
        mm.addMessage "user" ("<result>" ++ ex.result.getD "" ++ "</result>")
      else if truthy ex.error then
        mm.addMessage "user" ("<error>" ++ ex.error.getD "" ++ "</error>")
      else mm
    if a.type = .completion then (acc', mm', true, a.content)
    else processActions exts rest mm' acc'

/-- The LLM callback: a function of the invocation index (the callbacks in
the claims are counters) and the formatted message list. -/
def LlmClient : Type := Nat → List FMsg → String

/-- One `while` pass of `Orchestrator.run`, iterated on the remaining
iteration budget.  State: messages (in the `MemoryManager`), the LLM
invocation index, and the accumulated `results["actions"]`. -/
def orchLoop (exts : List ExtModel) (systemPrompt : String) (llm : LlmClient) :
    Nat → Nat → MemoryManager → Nat → List (ActionType × Bool) →
      RunResult × MemoryManager × Nat
  | 0, iter, mm, idx, acc =>
    ({ success := false, iterations := iter, finalOutput := "", actions := acc }, mm, idx)
  | r + 1, iter, mm, idx, acc =>
    let fmt := prepareMessages exts systemPrompt mm.messages
    let raw := llm idx fmt
    let out := exts.foldl (fun o e => e.onLlmOutput o) raw
    let mm₂ := mm.addMessage "assistant" out
    let idx₂ := idx + 1
    let acts := parseActions out
    if acts.isEmpty then
      ({ success := true, iterations := iter + 1, finalOutput := out, actions := acc }, mm₂, idx₂)
    else
      let (acc₂, mm₃, completedA, finalA) := processActions exts acts mm₂ acc
      let (completed, finalO) :=
        if checkCompletion out then (true, out) else (completedA, finalA)
      if completed then
        ({ success := true, iterations := iter + 1, finalOutput := finalO, actions := acc₂ }, mm₃, idx₂)
      else
        orchLoop exts systemPrompt llm r (iter + 1) mm₃ idx₂ acc₂

/-- `Orchestrator.run`: append the task as a user message, then loop up to
`max_iterations` times. -/
def orchRun (exts : List ExtModel) (maxIterations : Nat) (systemPrompt : String)
    (llm : LlmClient) (mm : MemoryManager) (idx : Nat) (task : String) :
    RunResult × MemoryManager × Nat :=
  orchLoop exts systemPrompt llm maxIterations 0 (mm.addMessage "user" task) idx []

/-! ### RalphOrchestrator (ralph_integration.py) -/

/-- `RalphLoopConfig`.  `delay_seconds` (a blocking sleep) and the
note-store path are wall-clock / file-system concerns outside the model. -/
structure RalphLoopConfig where
  completionPromise : String := "TASK_COMPLETE"
  maxIterations : Nat := 20
  deriving Repr, DecidableEq

/-- The result dict of `run_ralph_loop` (without the file-system
`notes_created` list and the memory-hierarchy echo, which no claim uses). -/
structure RalphResult where
  success : Bool
  ralphIterations : Nat
  totalOrchestratorIterations : Nat
  completionPromiseFound : Bool
  trajectory : List (Nat × RunResult)
  deriving Repr, DecidableEq

/-- The `while` loop of `run_ralph_loop`: run the (memory-sharing) inner
orchestrator, log the trajectory, stop when the completion promise occurs in
`final_output` or the inner run reported success. -/
def ralphLoop (cfg : RalphLoopConfig) (exts : List ExtModel) (systemPrompt : String)
    (llm : LlmClient) (task : String) :
    Nat → Nat → MemoryManager → Nat → List (Nat × RunResult) →
      Bool × Nat × List (Nat × RunResult) × MemoryManager × Nat
  | 0, iter, mm, idx, traj => (false, iter, traj, mm, idx)
  | r + 1, iter, mm, idx, traj =>
    let (res, mm', idx') := orchRun exts cfg.maxIterations systemPrompt llm mm idx task
    let traj' := traj ++ [(iter + 1, res)]
    if pyContains res.finalOutput cfg.completionPromise then
      (true, iter + 1, traj', mm', idx')
    else if res.success then
      (true, iter + 1, traj', mm', idx')
    else
      ralphLoop cfg exts systemPrompt llm task r (iter + 1) mm' idx' traj'

/-- `RalphOrchestrator.run_ralph_loop`: the orchestrator is constructed with
`max_iterations=config.max_iterations` and a fresh default `MemoryManager`
shared across all Ralph iterations; the final dict sets both `success` and
`completion_promise_found` from the loop's `completed` flag. -/
def runRalphLoop (cfg : RalphLoopConfig) (exts : List ExtModel) (systemPrompt : String)
    (llm : LlmClient) (task : String) : RalphResult :=
  let out := ralphLoop cfg exts systemPrompt llm task cfg.maxIterations 0 {} 0 []
  { success := out.1
    ralphIterations := out.2.1
    totalOrchestratorIterations := (out.2.2.1.map (fun t => t.2.iterations)).sum
    completionPromiseFound := out.1
    trajectory := out.2.2.1 }

/-! ### Concrete extensions (extensions.py)

Each `execute` touches the outside world (subprocess, file system); the
outcome of that effect is a parameter, and the model maps action plus
outcome to the mutated action exactly as the source does.
-/

/-- Outcome of `subprocess.run` inside `BashExtension.execute`. -/
inductive BashOutcome where
  | completed (stdout stderr : String) (returncode : Int)
  | timedOut
  | raised (msg : String)
  deriving Repr, DecidableEq

/-- The blocked-command list of `BashExtension`. -/
def blockedCommands : List String := ["rm -rf /", "mkfs", "dd if="]

/-- `BashExtension.execute` (timeout fixed at its default 30s). -/
def bashExecute (a : Action) (o : BashOutcome) : Action :=
  let command := pyStrip a.content
  if blockedCommands.any (fun b => pyContains command b) then
    { a with error := some ("Blocked dangerous command: " ++ command) }
  else
    match o with
    | .completed stdout stderr rc =>
      let a' := { a with result := some (pyTake 2000 (stdout ++ stderr)) }
      if rc ≠ 0 then { a' with error := some ("Command failed with exit code " ++ toString rc) }
      else a'
    | .timedOut => { a with error := some "Command timed out after 30s" }
    | .raised msg => { a with error := some ("Execution error: " ++ msg) }

/-- Outcome of the file-system effect inside `FileEditExtension.execute`:
whether the resolved path escapes the workspace, and what the selected
operation did (`delete` checks existence first; any raised exception is the
`.error` case of the `Except`). -/
structure FileEditFs where
  pathEscapes : Bool
  writeOutcome : Except String Unit
  appendOutcome : Except String Unit
  deleteExists : Bool
  deleteOutcome : Except String Unit
  patchOutcome : Except String Unit

/-- `FileEditExtension.execute`. -/
def fileEditExecute (a : Action) (fs : FileEditFs) : Action :=
  let filePath := match (a.metadata.lookup "path").getD (.s "") with
    | .s p => p
    | _ => ""
  if filePath = "" then { a with error := some "No file path specified" }
  else if fs.pathEscapes then
    { a with error := some ("File path outside workspace: " ++ filePath) }
  else
    let operation := match (a.metadata.lookup "operation").getD (.s "write") with
      | .s op => op
      | _ => "write"
    if operation = "create" ∨ operation = "write" then
      match fs.writeOutcome with
      | .ok _ => { a with result := some ("File written successfully: " ++ filePath) }
      | .error e => { a with error := some ("File operation failed: " ++ e) }
    else if operation = "append" then
      match fs.appendOutcome with
      | .ok _ => { a with result := some ("Content appended to: " ++ filePath) }
      | .error e => { a with error := some ("File operation failed: " ++ e) }
    else if operation = "delete" then
      if fs.deleteExists then
        match fs.deleteOutcome with
        | .ok _ => { a with result := some ("File deleted: " ++ filePath) }
        | .error e => { a with error := some ("File operation failed: " ++ e) }
      else { a with error := some ("File not found: " ++ filePath) }
    else if operation = "patch" then
      match fs.patchOutcome with
      | .ok _ => { a with result := some ("Patch applied to: " ++ filePath) }
      | .error e => { a with error := some ("File operation failed: " ++ e) }
    else { a with error := some ("Unknown operation: " ++ operation) }

/-- Outcome of the file-system effect inside `FileReadExtension.execute`. -/
inductive FileReadFs where
  | pathEscapes
  | notFound
  | content (text : String)
  | raised (msg : String)
  deriving Repr, DecidableEq

/-- `FileReadExtension.execute`. -/
def fileReadExecute (a : Action) (fs : FileReadFs) : Action :=
  let filePath := pyStrip a.content
  match fs with
  | .pathEscapes => { a with error := some ("File path outside workspace: " ++ filePath) }
  | .notFound => { a with error := some ("File not found: " ++ filePath) }
  | .content text =>
    if 10000 < text.length then
      { a with result := some (pyTake 10000 text ++ "\n\n[... truncated " ++
          toString (text.length - 10000) ++ " characters ...]") }
    else { a with result := some text }
  | .raised msg => { a with error := some ("Failed to read file: " ++ msg) }

/-- Outcome of the search effect inside `FileSearchExtension.execute`. -/
inductive FileSearchFs where
  | results (found : List String)
  | raised (msg : String)
  deriving Repr, DecidableEq

/-- `FileSearchExtension.execute`. -/
def fileSearchExecute (a : Action) (fs : FileSearchFs) : Action :=
  let searchType := match (a.metadata.lookup "search_type").getD (.s "filename") with
    | .s t => t
    | _ => "filename"
  if searchType = "filename" ∨ searchType = "content" then
    match fs with
    | .results rs =>
      if rs ≠ [] then
        { a with result := some ("Found " ++ toString rs.length ++ " matches:\n" ++
            pyJoin "\n" (rs.take 20)) }
      else { a with result := some "No matches found" }
    | .raised msg => { a with error := some ("Search failed: " ++ msg) }
  else { a with error := some ("Unknown search type: " ++ searchType) }

/-- `ThinkingExtension.execute`: logs the thought and sets `result`. -/
def thinkingExecute (a : Action) : Action :=
  { a with result := some "[Thinking logged]" }

/-! ### SubagentExtension (subagent_extension.py) -/

/-- The fields of a `SubagentCall` the model carries (timestamps and
durations are wall-clock). -/
structure SubagentCall where
  name : String
  inputSummary : String
  outputSummary : String
  fullOutput : String
  callIndex : Nat
  actionsTaken : List String
  status : String
  deriving Repr, DecidableEq

/-- Mutable state of a `SubagentExtension`: recursion depth and call trace. -/
structure SubagentState where
  currentDepth : Nat := 0
  callTrace : List SubagentCall := []
  deriving Repr, DecidableEq

/-- What the isolated sub-orchestrator run produced (the fields
`_spawn_subagent` reads from `result`). -/
structure SubRunSummary where
  success : Bool
  finalOutput : String
  iterations : Nat
  actions : List (ActionType × Bool)
  deriving Repr, DecidableEq

/-- The outcome of `sub_orchestrator.run(task)` inside the `try`: either a
result dict or a raised exception with its message. -/
def SubRunOutcome : Type := Except String SubRunSummary

/-- `SubagentExtension._spawn_subagent`: build the call record from the
sub-run outcome (the `except` arm turns an exception into a `status="error"`
record), append it to the trace, and decrement the depth in the `finally`
(so the net depth change is zero). -/
def spawnSubagent (st : SubagentState) (name task : String) (outcome : SubRunOutcome) :
    SubagentCall × SubagentState :=
  let depthDuringRun := st.currentDepth + 1
  let call : SubagentCall :=
    match outcome with
    | .ok r =>
      { name := name
        inputSummary := pyTake 150 task
        outputSummary := pyTake 200 r.finalOutput
        fullOutput := r.finalOutput
        callIndex := st.callTrace.length
        actionsTaken := r.actions.map (fun p => p.1.pyStr)
        status := if r.success then "success" else "failed" }
    | .error e =>
      { name := name
        inputSummary := pyTake 150 task
        outputSummary := "ERROR: " ++ pyTake 100 e
        fullOutput := "Subagent failed with error: " ++ e
        callIndex := st.callTrace.length
        actionsTaken := []
        status := "error" }
  (call, { currentDepth := depthDuringRun - 1, callTrace := st.callTrace ++ [call] })

/-- `SubagentExtension._format_result`. -/
def formatResult (call : SubagentCall) : String :=
  "<subagent_result name=\"" ++ call.name ++ "\" call_index=\"" ++
    toString call.callIndex ++ "\">\n" ++ call.fullOutput ++ "\n</subagent_result>"

/-- The `<subagent\s+name="([^"]+)">(.*?)</subagent>` matches of an output. -/
def subagentMatches (output : String) : List AttrMatch :=
  scanAttrSpans "<subagent".data "name=\"".data "</subagent>".data output.data

/-- The depth-limit marker text. -/
def depthLimitMarker (maxDepth : Nat) : String :=
  "[ERROR: Subagent depth limit reached (" ++ toString maxDepth ++ ")]"

/-- `SubagentExtension.on_llm_output`: no matches passes the text through;
at the depth limit, `output.replace(matches[0].group(0), marker)` (replacing
every occurrence of that text, as `str.replace` does); otherwise each match
spawns a subagent and its tag text is replaced by the formatted result
block.  `outcomes` gives the sub-run outcome for each call index. -/
def subagentOnLlmOutput (maxDepth : Nat) (outcomes : Nat → SubRunOutcome)
    (st : SubagentState) (output : String) : String × SubagentState :=
  let ms := subagentMatches output
  match ms with
  | [] => (output, st)
  | m :: _ =>
    if maxDepth ≤ st.currentDepth then
      (pyReplace output ⟨m.g0⟩ (depthLimitMarker maxDepth), st)
    else
      ms.foldl
        (fun (acc : String × SubagentState) mt =>
          let (call, st') := spawnSubagent acc.2 ⟨mt.attr⟩ ⟨pyStripL mt.body⟩
            (outcomes acc.2.callTrace.length)
          (pyReplace acc.1 ⟨mt.g0⟩ (formatResult call), st'))
        (output, st)

/-! ### Notes (notes.py) -/

/-- `NoteType` (notes.py). -/
inductive NoteType where
  | architecture
  | decision
  | solution
  | failure
  | research
  | finding
  | pattern
  deriving Repr, DecidableEq

/-- `NoteType(...).value`. -/
def NoteType.value : NoteType → String
  | .architecture => "architecture"
  | .decision => "decision"
  | .solution => "solution"
  | .failure => "failure"
  | .research => "research"
  | .finding => "finding"
  | .pattern => "pattern"

/-- `NoteType(type_str)`: the enum lookup (`ValueError` becomes `none`). -/
def noteTypeOfValue (s : String) : Option NoteType :=
  if s = "architecture" then some .architecture
  else if s = "decision" then some .decision
  else if s = "solution" then some .solution
  else if s = "failure" then some .failure
  else if s = "research" then some .research
  else if s = "finding" then some .finding
  else if s = "pattern" then some .pattern
  else none

/-- `Note` (notes.py). -/
structure Note where
  title : String
  content : String
  noteType : NoteType
  path : String
  tags : List String := []
  metadata : List (String × MVal) := []
  createdAt : String
  updatedAt : String
  deriving Repr, DecidableEq

/-- `json.dumps(metadata, indent=2)` as far as the metadata block needs it
(the parser never reads this block back). -/
def jsonDumpMeta (md : List (String × MVal)) : String :=
  let renderV : MVal → String
    | .b true => "true"
    | .b false => "false"
    | .n k => toString k
    | .s v => "\"" ++ v ++ "\""
  "\x7b\n" ++
    String.intercalate ",\n" (md.map (fun kv => "  \"" ++ kv.1 ++ "\": " ++ renderV kv.2)) ++
    "\n\x7d"

/-- `Note.to_markdown`. -/
def Note.toMarkdown (n : Note) : String :=
  "# " ++ n.title ++ "\n\n" ++
    "**Type:** " ++ n.noteType.value ++ "  \n" ++
    "**Created:** " ++ n.createdAt ++ "  \n" ++
    "**Updated:** " ++ n.updatedAt ++ "  \n" ++
    (if n.tags ≠ [] then "**Tags:** " ++ pyJoin ", " n.tags ++ "  \n" else "") ++
    "\n---\n\n" ++ n.content ++ "\n\n---\n\n" ++
    (if n.metadata ≠ [] then
      "## Metadata\n\n```json\n" ++ jsonDumpMeta n.metadata ++ "\n```\n"
    else "")

/-- The frontmatter fields accumulated by the `for line in lines[:10]` scan
of `Note.from_markdown`. -/
structure FrontState where
  title : String
  noteType : NoteType
  tags : List String
  createdAt : String
  updatedAt : String
  deriving Repr, DecidableEq

/-- Python `line.split(marker)[1]` guarded by `marker in line`. -/
def splitTail (marker line : List Char) : List Char :=
  ((pySplitL marker line).get? 1).getD []

/-- One line of the frontmatter scan (the `if`/`elif` chain of
`from_markdown`, in source order). -/
def frontLine (st : FrontState) (line : List Char) : FrontState :=
  if startsWithL line "# ".data then
    { st with title := ⟨pyStripL (line.drop 2)⟩ }
  else if containsL line "**Type:**".data then
    match noteTypeOfValue ⟨pyStripL (splitTail "**Type:**".data line)⟩ with
    | some t => { st with noteType := t }
    | none => st
  else if containsL line "**Tags:**".data then
    let pieces := pySplitL ",".data (pyStripL (splitTail "**Tags:**".data line))
    { st with tags := pieces.map (fun t => (⟨pyStripL t⟩ : String)) }
  else if containsL line "**Created:**".data then
    { st with createdAt := ⟨pyStripL (splitTail "**Created:**".data line)⟩ }
  else if containsL line "**Updated:**".data then
    { st with updatedAt := ⟨pyStripL (splitTail "**Updated:**".data line)⟩ }
  else st

/-- `Note.from_markdown(path, content)`.  The Python default timestamps call
`datetime.now()`; the model takes that string as the `now` parameter. -/
def Note.fromMarkdown (now path content : String) : Note :=
  let lines := splitLinesL content.data
  let st0 : FrontState :=
    { title := "", noteType := .finding, tags := [], createdAt := now, updatedAt := now }
  let st := (lines.take 10).foldl frontLine st0
  let parts := pySplitL "---".data content.data
  let mainContent : String :=
    match parts with
    | _ :: x :: _ => ⟨pyStripL x⟩
    | _ => content
  { title := st.title
    content := mainContent
    noteType := st.noteType
    path := path
    tags := st.tags
    metadata := []
    createdAt := st.createdAt
    updatedAt := st.updatedAt }

/-! ## Lemmas about the string primitives -/

theorem splitFirst_of_isPre (p s : List Char) (h : p <+: s) :
    splitFirst p s = some ([], s.drop p.length) := by
  cases s with
  | nil =>
    have hp : p = [] := List.prefix_nil.mp h
    subst hp
    simp [splitFirst]
  | cons c t =>
    simp [splitFirst, h]

theorem splitFirst_append_of_noEarlier (p a r : List Char)
    (h : ∀ i, i < a.length → ¬ p <+: (a.drop i ++ (p ++ r))) :
    splitFirst p (a ++ (p ++ r)) = some (a, r) := by
  induction a with
  | nil =>
    rw [List.nil_append, splitFirst_of_isPre p (p ++ r) (List.prefix_append p r),
      List.drop_left]
  | cons c t ih =>
    have h0 : ¬ p <+: (c :: (t ++ (p ++ r))) := by
      have h' := h 0 (by simp)
      rwa [List.drop_zero, List.cons_append] at h'
    have hrec : splitFirst p (t ++ (p ++ r)) = some (t, r) := by
      refine ih (fun i hi => ?_)
      have h' := h (i + 1) (by simpa using Nat.succ_lt_succ hi)
      rwa [List.drop_succ_cons] at h'
    show splitFirst p (c :: (t ++ (p ++ r))) = some (c :: t, r)
    rw [splitFirst, if_neg h0, hrec]

theorem splitFirst_eq_none_of (p s : List Char) (hp : p ≠ []) (h : ¬ p <:+: s) :
    splitFirst p s = none := by
  induction s with
  | nil => simp [splitFirst, hp]
  | cons c t ih =>
    have h1 : ¬ p <+: (c :: t) := fun hpre => h hpre.isInfix
    have h2 : ¬ p <:+: t := fun hinf => h (List.infix_cons hinf)
    rw [splitFirst, if_neg h1, ih h2]

theorem splitFirst_some_decomp (p : List Char) :
    ∀ s pre post, splitFirst p s = some (pre, post) → s = pre ++ p ++ post := by
  intro s
  induction s with
  | nil =>
    intro pre post h
    rw [splitFirst] at h
    by_cases hp : p = []
    · subst hp
      rw [if_pos rfl] at h
      simp only [Option.some_inj, Prod.mk.injEq] at h
      obtain ⟨h1, h2⟩ := h
      simp [← h1, ← h2]
    · rw [if_neg hp] at h
      exact absurd h (by simp)
  | cons c t ih =>
    intro pre post h
    rw [splitFirst] at h
    by_cases hpre : p <+: (c :: t)
    · rw [if_pos hpre] at h
      simp only [Option.some_inj, Prod.mk.injEq] at h
      obtain ⟨h1, h2⟩ := h
      obtain ⟨u, hu⟩ := hpre
      have hpost : post = u := by
        rw [← h2, ← hu, List.drop_left]
      rw [← h1, hpost, List.nil_append]
      exact hu.symm
    · rw [if_neg hpre] at h
      cases hsf : splitFirst p t with
      | none => rw [hsf] at h; exact absurd h (by simp)
      | some pr =>
        obtain ⟨pre', post'⟩ := pr
        rw [hsf] at h
        simp only [Option.some_inj, Prod.mk.injEq] at h
        obtain ⟨h1, h2⟩ := h
        have ht := ih pre' post' hsf
        rw [← h1, ← h2, ht]
        simp

/-- `p` has no non-trivial border (no proper prefix that is also a suffix);
all the literal tags of the source's patterns satisfy this. -/
def BorderFree (p : List Char) : Prop :=
  ∀ k, k < p.length → 0 < k → p.drop k ≠ p.take (p.length - k)

instance (p : List Char) : Decidable (BorderFree p) := by
  unfold BorderFree
  infer_instance

theorem noEarlier_of_borderFree (p a r : List Char)
    (ha : ¬ p <:+: a) (hbf : BorderFree p) :
    ∀ i, i < a.length → ¬ p <+: (a.drop i ++ (p ++ r)) := by
  intro i hi hpre
  have ht : a.drop i ≠ [] := by
    rw [Ne, List.drop_eq_nil_iff]
    omega
  set t := a.drop i with htdef
  by_cases hle : p.length ≤ t.length
  · -- the occurrence lies inside `a`
    have hpt : p <+: t := by
      have h1 : p = (t ++ (p ++ r)).take p.length := by
        obtain ⟨u, hu⟩ := hpre
        rw [← hu, List.take_left' rfl]
      rw [List.take_append_eq_append_take, Nat.sub_eq_zero_of_le hle, List.take_zero,
        List.append_nil] at h1
      rw [h1]
      exact List.take_prefix _ _
    exact ha (hpt.isInfix.trans (List.drop_suffix i a).isInfix)
  · -- the occurrence straddles the boundary: a border of `p`
    push_neg at hle
    have h1 : p = (t ++ (p ++ r)).take p.length := by
      obtain ⟨u, hu⟩ := hpre
      rw [← hu, List.take_left' rfl]
    rw [List.take_append_eq_append_take, List.take_of_length_le (le_of_lt hle),
      List.take_append_eq_append_take, Nat.sub_eq_zero_of_le (Nat.sub_le _ _),
      List.take_zero, List.append_nil] at h1
    have hdrop : p.drop t.length = p.take (p.length - t.length) := by
      conv_lhs => rw [h1]
      rw [List.drop_left]
    have hpos : 0 < t.length := List.length_pos.mpr ht
    exact hbf t.length hle hpos hdrop

theorem noEarlier_of_headNotMem (p a r : List Char) (c : Char) (hc : p.head? = some c)
    (hnm : c ∉ a) : ∀ i, i < a.length → ¬ p <+: (a.drop i ++ (p ++ r)) := by
  intro i hi hpre
  have ht : a.drop i ≠ [] := by
    rw [Ne, List.drop_eq_nil_iff]
    omega
  obtain ⟨d, t', htd⟩ := List.exists_cons_of_ne_nil ht
  cases p with
  | nil => simp at hc
  | cons x xs =>
    rw [List.head?_cons, Option.some_inj] at hc
    subst hc
    rw [htd] at hpre
    have hxd : x = d := (List.cons_prefix_cons.mp (by simpa using hpre)).1
    have hd : d ∈ a := List.mem_of_mem_drop (n := i) (by rw [htd]; exact List.mem_cons_self d t')
    rw [hxd] at hnm
    exact hnm hd

theorem notInfix_of_head_notMem (m s : List Char) (c : Char) (hc : m.head? = some c)
    (h : c ∉ s) : ¬ m <:+: s := by
  intro hinf
  have hm : c ∈ m := by
    cases m with
    | nil => simp at hc
    | cons x xs =>
      injection hc with h'
      simp [h']
  exact h (hinf.subset hm)

/-- At every start position inside `lit`, matching `m` fails already inside
`lit` (a character mismatch before the literal runs out).  Decidable, so the
concrete marker/literal pairs of the note format are checked by `decide`. -/
def BlocksAt (m lit : List Char) : Prop :=
  ∀ i, i < lit.length → ∃ j, j < m.length ∧ i + j < lit.length ∧ lit.get? (i + j) ≠ m.get? j

instance (m lit : List Char) : Decidable (BlocksAt m lit) := by
  unfold BlocksAt
  infer_instance

theorem notInfix_of_blocks (m lit rest : List Char) (c : Char)
    (hblock : BlocksAt m lit) (hc : m.head? = some c) (hhead : c ∉ rest) :
    ¬ m <:+: (lit ++ rest) := by
  rintro ⟨s, t, hst⟩
  have hpre : m <+: (lit ++ rest).drop s.length := by
    rw [← hst, List.append_assoc, List.drop_left]
    exact List.prefix_append m t
  by_cases hlt : s.length < lit.length
  · obtain ⟨j, hj1, hj2, hj3⟩ := hblock s.length hlt
    apply hj3
    obtain ⟨u, hu⟩ := hpre
    have h1 : (lit ++ rest).drop s.length = lit.drop s.length ++ rest := by
      rw [List.drop_append_eq_append_drop, Nat.sub_eq_zero_of_le (le_of_lt hlt), List.drop_zero]
    have hjlen : j < (lit.drop s.length).length := by
      rw [List.length_drop]
      omega
    have h2 : ((lit ++ rest).drop s.length).get? j = m.get? j := by
      rw [← hu]
      have hjm : j < m.length := hj1
      exact List.get?_append hjm
    rw [← h2, h1, List.get?_append hjlen, List.get?_drop]
  · push_neg at hlt
    have h1 : (lit ++ rest).drop s.length = rest.drop (s.length - lit.length) := by
      rw [List.drop_append_eq_append_drop, List.drop_eq_nil_iff.mpr hlt, List.nil_append]
    refine notInfix_of_head_notMem m (rest.drop (s.length - lit.length)) c hc ?_ ?_
    · intro hmem
      exact hhead (List.mem_of_mem_drop hmem)
    · exact (h1 ▸ hpre).isInfix

theorem scanSpansF_nil_of_noOpen (ob cb s : List Char) (hob : ob ≠ []) (h : ¬ ob <:+: s) :
    ∀ f, scanSpansF ob cb f s = [] := by
  intro f
  cases f with
  | zero => rfl
  | succ g => rw [scanSpansF, splitFirst_eq_none_of ob s hob h]

/-- An input holding exactly one well-formed `ob ... cb` span yields exactly
that span's body. -/
theorem scanSpans_single (ob cb a x b : List Char) (hob : ob ≠ []) (hcb : cb ≠ [])
    (hbfo : BorderFree ob) (hbfc : BorderFree cb)
    (ha : ¬ ob <:+: a) (hx : ¬ cb <:+: x) (hb : ¬ ob <:+: b) :
    scanSpans ob cb (a ++ (ob ++ (x ++ (cb ++ b)))) = [x] := by
  have h1 : splitFirst ob (a ++ (ob ++ (x ++ (cb ++ b)))) = some (a, x ++ (cb ++ b)) :=
    splitFirst_append_of_noEarlier _ _ _ (noEarlier_of_borderFree _ _ _ ha hbfo)
  have h2 : splitFirst cb (x ++ (cb ++ b)) = some (x, b) :=
    splitFirst_append_of_noEarlier _ _ _ (noEarlier_of_borderFree _ _ _ hx hbfc)
  have hpos : 0 < (a ++ (ob ++ (x ++ (cb ++ b)))).length := by
    have hpo : 0 < ob.length := List.length_pos.mpr hob
    simp only [List.length_append]
    omega
  show scanSpansF ob cb (a ++ (ob ++ (x ++ (cb ++ b)))).length (a ++ (ob ++ (x ++ (cb ++ b)))) = [x]
  rw [(Nat.succ_pred_eq_of_pos hpos).symm, scanSpansF, h1]
  dsimp only
  rw [h2]
  dsimp only
  rw [scanSpansF_nil_of_noOpen ob cb b hob hb]

/-! ## Claim C7: one well-formed bash span -/

/-- C7: for every input string containing exactly one well-formed bash span
`<bash>X</bash>` (no occurrence of `<bash>` before or after the span and no
`</bash>` inside it), `_parse_actions` returns exactly one Action of kind
`BASH_COMMAND`, whose content is `X` with surrounding whitespace trimmed. -/
theorem C7_single_bash_span (a x b : List Char)
    (ha : ¬ ("<bash>".data <:+: a)) (hx : ¬ ("</bash>".data <:+: x))
    (hb : ¬ ("<bash>".data <:+: b)) :
    (parseActions ⟨a ++ ("<bash>".data ++ (x ++ ("</bash>".data ++ b)))⟩).filter
        (fun act => decide (act.type = ActionType.bashCommand)) =
      [{ type := ActionType.bashCommand, content := ⟨pyStripL x⟩ }] := by
  have hscan := scanSpans_single "<bash>".data "</bash>".data a x b (by decide) (by decide)
    (by decide) (by decide) ha hx hb
  have hbash : bashActions ⟨a ++ ("<bash>".data ++ (x ++ ("</bash>".data ++ b)))⟩ =
      [{ type := ActionType.bashCommand, content := ⟨pyStripL x⟩ }] := by
    unfold bashActions
    rw [show (⟨a ++ ("<bash>".data ++ (x ++ ("</bash>".data ++ b)))⟩ : String).data =
      a ++ ("<bash>".data ++ (x ++ ("</bash>".data ++ b))) from rfl, hscan]
    rfl
  unfold parseActions
  rw [List.filter_append, List.filter_append, List.filter_append, List.filter_append,
    List.filter_append, hbash]
  have hedit : ∀ s, (fileEditActions s).filter
      (fun act => decide (act.type = ActionType.bashCommand)) = [] := by
    intro s
    refine List.filter_eq_nil_iff.mpr ?_
    intro act hact
    simp only [fileEditActions, List.mem_map] at hact
    obtain ⟨m, _, rfl⟩ := hact
    simp
  have hread : ∀ s, (fileReadActions s).filter
      (fun act => decide (act.type = ActionType.bashCommand)) = [] := by
    intro s
    refine List.filter_eq_nil_iff.mpr ?_
    intro act hact
    simp only [fileReadActions, List.mem_map] at hact
    obtain ⟨m, _, rfl⟩ := hact
    simp
  have hsearch : ∀ s, (fileSearchActions s).filter
      (fun act => decide (act.type = ActionType.bashCommand)) = [] := by
    intro s
    refine List.filter_eq_nil_iff.mpr ?_
    intro act hact
    simp only [fileSearchActions, List.mem_map] at hact
    obtain ⟨m, _, rfl⟩ := hact
    simp
  have hthink : ∀ s, (thinkingActions s).filter
      (fun act => decide (act.type = ActionType.bashCommand)) = [] := by
    intro s
    refine List.filter_eq_nil_iff.mpr ?_
    intro act hact
    simp only [thinkingActions, List.mem_map] at hact
    obtain ⟨m, _, rfl⟩ := hact
    simp
  have hcomp : ∀ s, (if hasParserCompletionPhrase s then
      [{ type := ActionType.completion, content := s : Action }] else []).filter
      (fun act => decide (act.type = ActionType.bashCommand)) = [] := by
    intro s
    by_cases hc : hasParserCompletionPhrase s <;> simp [hc]
  rw [hedit, hread, hsearch, hthink, hcomp]
  simp

/-- C7 witness: a concrete input with exactly one bash span. -/
theorem C7_single_bash_span_witness :
    (¬ ("<bash>".data <:+: "run ".data)) ∧ (¬ ("</bash>".data <:+: " ls -la ".data)) ∧
      (¬ ("<bash>".data <:+: " done".data)) ∧
      (parseActions ⟨"run ".data ++ ("<bash>".data ++ (" ls -la ".data ++
          ("</bash>".data ++ " done".data)))⟩).filter
          (fun act => decide (act.type = ActionType.bashCommand)) =
        [{ type := ActionType.bashCommand, content := ⟨pyStripL " ls -la ".data⟩ }] :=
  ⟨by decide, by decide, by decide,
    C7_single_bash_span "run ".data " ls -la ".data " done".data
      (by decide) (by decide) (by decide)⟩

/-! ## Claim C2: the two completion scans -/

/-- C2 counterexample: the output `"finished"` satisfies the parser's
completion-phrase scan (`"finished"` is one of its phrases) but not
`_check_completion` (whose corresponding signal is the longer
`"finished successfully"`), so the two checks are not equivalent. -/
theorem C2_counterexample :
    checkCompletion "finished" = false ∧ hasParserCompletionPhrase "finished" = true := by
  constructor
  · rfl
  · rfl

/-- C2 amended: `_check_completion(output)` succeeds exactly when the
lowercased output contains one of ITS OWN four signals — `"task complete"`,
`"finished successfully"`, `"done with all steps"`,
`"no further actions needed"` — a set that differs from the parser's
completion-phrase set. -/
theorem C2_checkCompletion_characterisation (s : String) :
    checkCompletion s = true ↔
      ("task complete".data <:+: pyLowerL s.data ∨
        "finished successfully".data <:+: pyLowerL s.data ∨
        "done with all steps".data <:+: pyLowerL s.data ∨
        "no further actions needed".data <:+: pyLowerL s.data) := by
  simp [checkCompletion, completionSignals, containsL]

/-! ## Claim C9: completion_promise_found equals success -/

/-- C9: in the result dict of `run_ralph_loop`, `completion_promise_found`
always equals `success`: both are assigned the loop's `completed` flag, which
is also set when the loop stopped because the inner run reported success,
promise or no promise. -/
theorem C9_promiseFound_eq_success (cfg : RalphLoopConfig) (exts : List ExtModel)
    (sysPrompt : String) (llm : LlmClient) (task : String) :
    (runRalphLoop cfg exts sysPrompt llm task).completionPromiseFound =
      (runRalphLoop cfg exts sysPrompt llm task).success := rfl

/-! ## Claim C6: extension dispatch -/

/-- C6: `_execute_action` with no claiming extension sets `error` to the
no-handler message naming the kind, leaves the rest of the action (in
particular `result`) untouched and executes nothing; with at least one
claiming extension, the first claiming extension in registration order
executes the action and dispatch stops there. -/
theorem C6_dispatch (exts : List ExtModel) (a : Action) :
    ((∀ e ∈ exts, e.canHandle a = false) →
      executeAction exts a =
        { a with error := some ("No extension found to handle " ++ a.type.pyStr) }) ∧
    (∀ pre e post, exts = pre ++ e :: post → (∀ e' ∈ pre, e'.canHandle a = false) →
      e.canHandle a = true → executeAction exts a = e.exec a) := by
  constructor
  · intro h
    induction exts with
    | nil => rfl
    | cons e es ih =>
      rw [executeAction, if_neg (by simp [h e (List.mem_cons_self e es)])]
      exact ih (fun e' he' => h e' (List.mem_cons_of_mem e he'))
  · intro pre e post hexts hpre hcan
    subst hexts
    induction pre with
    | nil =>
      rw [List.nil_append, executeAction, if_pos (by simp [hcan])]
    | cons e' pre' ih =>
      rw [List.cons_append, executeAction,
        if_neg (by simp [hpre e' (List.mem_cons_self e' pre')])]
      exact ih (fun e'' he'' => hpre e'' (List.mem_cons_of_mem e' he''))

/-- A file-read-only extension used to witness the dispatch theorem. -/
def fileReadOnlyExt : ExtModel :=
  { name := "file_read"
    canHandle := fun act => decide (act.type = ActionType.fileRead)
    exec := fun act => { act with result := some "content" } }

/-- C6 witness: one extension that claims only `FILE_READ`, dispatched on a
bash action: no handler claims it, so the action comes back with only the
no-handler error set. -/
theorem C6_dispatch_witness :
    (∀ e ∈ [fileReadOnlyExt],
        e.canHandle { type := ActionType.bashCommand, content := "ls" } = false) ∧
      executeAction [fileReadOnlyExt] { type := ActionType.bashCommand, content := "ls" } =
        { type := ActionType.bashCommand, content := "ls",
          error := some "No extension found to handle ActionType.BASH_COMMAND" } := by
  refine ⟨?_, ?_⟩
  · intro e he
    simp only [List.mem_singleton] at he
    subst he
    rfl
  · exact (C6_dispatch _ _).1 (by
      intro e he
      simp only [List.mem_singleton] at he
      subst he
      rfl)

/-! ## Claim C1: the end-to-end Ralph scenario -/

/-- The scenario's LLM callback: `"Working... (iteration N)"` on its N-th
invocation for N < 3, the completion message on the 3rd. -/
def llmWorkingThenComplete : LlmClient := fun k _ =>
  if k = 0 then "Working... (iteration 1)"
  else if k = 1 then "Working... (iteration 2)"
  else "Task completed successfully! TASK_COMPLETE"

/-- The scenario's config. -/
def ralphScenarioConfig : RalphLoopConfig :=
  { completionPromise := "TASK_COMPLETE", maxIterations := 10 }

set_option maxRecDepth 100000 in
/-- C1 counterexample: the scenario returns `ralph_iterations = 1`, not 3.
The first inner `Orchestrator.run` parses no actions out of
`"Working... (iteration 1)"`, so it immediately reports `success=true`, and
the Ralph loop stops on inner success. -/
theorem C1_counterexample :
    (runRalphLoop ralphScenarioConfig [] "" llmWorkingThenComplete "task").ralphIterations = 1 ∧
      (runRalphLoop ralphScenarioConfig [] "" llmWorkingThenComplete "task").ralphIterations ≠ 3 := by
  have h : (runRalphLoop ralphScenarioConfig [] "" llmWorkingThenComplete
      "task").ralphIterations = 1 := rfl
  exact ⟨h, by rw [h]; decide⟩

set_option maxRecDepth 100000 in
/-- C1 amended: in the scenario, `run_ralph_loop` returns
`ralph_iterations = 1` and `success = true` (and `completion_promise_found =
true` although the promise never appeared): the first inner run parses no
actions and reports success, which stops the outer loop. -/
theorem C1_scenario_one_iteration :
    (runRalphLoop ralphScenarioConfig [] "" llmWorkingThenComplete "task").ralphIterations = 1 ∧
      (runRalphLoop ralphScenarioConfig [] "" llmWorkingThenComplete "task").success = true ∧
      (runRalphLoop ralphScenarioConfig [] "" llmWorkingThenComplete
          "task").completionPromiseFound = true ∧
      (runRalphLoop ralphScenarioConfig [] "" llmWorkingThenComplete
          "task").totalOrchestratorIterations = 1 := by
  exact ⟨rfl, rfl, rfl, rfl⟩

/-! ## Claim C4: exactly one of result/error -/

/-- Exactly one of `result` and `error` is set. -/
def oneSet (a : Action) : Prop :=
  (a.result.isSome = true ∧ a.error = none) ∨ (a.result = none ∧ a.error.isSome = true)

/-- C4 counterexample: `BashExtension.execute` on a command that completes
with a non-zero exit code sets BOTH `result` (the captured output) and
`error` (the exit-code message). -/
theorem C4_counterexample :
    (bashExecute { type := ActionType.bashCommand, content := "make build" }
        (.completed "out" "" 1)).result = some "out" ∧
      (bashExecute { type := ActionType.bashCommand, content := "make build" }
        (.completed "out" "" 1)).error = some "Command failed with exit code 1" := by
  exact ⟨rfl, rfl⟩

/-- C4 amended: for every action fresh from the parser (`result` and `error`
unset), each dispatched core extension's `execute` sets exactly one of
`result`/`error` — except `BashExtension` on an unblocked command completing
with a non-zero exit code, which sets both. -/
theorem C4_execute_result_error (a : Action) (hr : a.result = none) (he : a.error = none) :
    (∀ (so se : String) (rc : Int),
        blockedCommands.any (fun b => pyContains (pyStrip a.content) b) = false → rc ≠ 0 →
        (bashExecute a (.completed so se rc)).result.isSome = true ∧
          (bashExecute a (.completed so se rc)).error.isSome = true) ∧
    (∀ (so se : String) (rc : Int),
        blockedCommands.any (fun b => pyContains (pyStrip a.content) b) = true →
        oneSet (bashExecute a (.completed so se rc))) ∧
    (∀ so se : String, oneSet (bashExecute a (.completed so se 0))) ∧
    oneSet (bashExecute a .timedOut) ∧
    (∀ msg, oneSet (bashExecute a (.raised msg))) ∧
    (∀ fs : FileEditFs, oneSet (fileEditExecute a fs)) ∧
    (∀ fs : FileReadFs, oneSet (fileReadExecute a fs)) ∧
    (∀ fs : FileSearchFs, oneSet (fileSearchExecute a fs)) ∧
    oneSet (thinkingExecute a) := by
  refine ⟨?_, ?_, ?_, ?_, ?_, ?_, ?_, ?_, ?_⟩
  · intro so se rc hnb hrc
    simp [bashExecute, hnb, hrc, he]
  · intro so se rc hb
    simp [bashExecute, hb, oneSet, hr]
  · intro so se
    by_cases hb : blockedCommands.any (fun b => pyContains (pyStrip a.content) b) = true <;>
      simp [bashExecute, hb, oneSet, hr, he]
  · by_cases hb : blockedCommands.any (fun b => pyContains (pyStrip a.content) b) = true <;>
      simp [bashExecute, hb, oneSet, hr, he]
  · intro msg
    by_cases hb : blockedCommands.any (fun b => pyContains (pyStrip a.content) b) = true <;>
      simp [bashExecute, hb, oneSet, hr, he]
  · intro fs
    unfold fileEditExecute
    dsimp only
    split_ifs <;>
      first
        | (simp [oneSet, hr, he]; done)
        | (cases fs.writeOutcome <;> (simp [oneSet, hr, he]; done))
        | (cases fs.appendOutcome <;> (simp [oneSet, hr, he]; done))
        | (cases fs.deleteOutcome <;> (simp [oneSet, hr, he]; done))
        | (cases fs.patchOutcome <;> (simp [oneSet, hr, he]; done))
  · intro fs
    cases fs with
    | pathEscapes => simp [fileReadExecute, oneSet, hr, he]
    | notFound => simp [fileReadExecute, oneSet, hr, he]
    | content text =>
      by_cases hlen : 10000 < text.length <;> simp [fileReadExecute, hlen, oneSet, hr, he]
    | raised msg => simp [fileReadExecute, oneSet, hr, he]
  · intro fs
    cases fs with
    | results found =>
      unfold fileSearchExecute
      dsimp only
      split_ifs <;> simp [oneSet, hr, he]
    | raised msg =>
      unfold fileSearchExecute
      dsimp only
      split_ifs <;> simp [oneSet, hr, he]
  · simp [thinkingExecute, oneSet, hr, he]

/-- C4 witness for the amended theorem, at a concrete fresh action. -/
theorem C4_execute_result_error_witness :
    ({ type := ActionType.thinking, content := "note" } : Action).result = none ∧
      oneSet (thinkingExecute { type := ActionType.thinking, content := "note" }) :=
  ⟨rfl, (C4_execute_result_error { type := ActionType.thinking, content := "note" }
    rfl rfl).2.2.2.2.2.2.2.2⟩

/-! ## Claim C3: memory compression -/

/-- The message list right after the append step of `add_message`. -/
def appendedMessages (mm : MemoryManager) (role content : String)
    (md : List (String × MVal)) : List Message :=
  mm.messages ++ [{ role := role, content := content, metadata := md }]

set_option maxHeartbeats 1000000 in
/-- C3 amended: when an `add_message` pushes the token estimate above
`max_tokens * compression_threshold` AND the sequence now holds at least 10
messages (the code skips compression below 10), the message list becomes one
synthetic compressed message (tagged `compressed=true`, with
`original_count` = the number of collapsed messages) followed by the 5 most
recent messages verbatim. -/
theorem C3_compression (mm : MemoryManager) (role content : String)
    (md : List (String × MVal))
    (h1 : (mm.maxTokens : ℚ) * mm.compressionThreshold <
      ((((appendedMessages mm role content md).map
          (fun m => m.content.length)).sum / 4 : Nat) : ℚ))
    (h2 : 10 ≤ (appendedMessages mm role content md).length) :
    (mm.addMessage role content md).messages =
      MemoryManager.summaryMessage
          ((appendedMessages mm role content md).take
            ((appendedMessages mm role content md).length - 5)) ::
        (appendedMessages mm role content md).drop
          ((appendedMessages mm role content md).length - 5) ∧
      (MemoryManager.summaryMessage
          ((appendedMessages mm role content md).take
            ((appendedMessages mm role content md).length - 5))).compressed = true ∧
      (MemoryManager.summaryMessage
          ((appendedMessages mm role content md).take
            ((appendedMessages mm role content md).length - 5))).metadata.lookup
          "original_count"
        = some (.n ((appendedMessages mm role content md).length - 5)) := by
  refine ⟨?_, rfl, ?_⟩
  · unfold MemoryManager.addMessage
    dsimp only
    split
    · unfold MemoryManager.compressHistory
      split
      · rename_i hlt
        have hlt' : (appendedMessages mm role content md).length < 10 := hlt
        omega
      · rfl
    · rename_i hc
      exact absurd h1 hc
  · unfold MemoryManager.summaryMessage
    simp only [List.lookup]
    have hkey : ("original_count" == "compressed") = false := by decide
    rw [hkey]
    simp only [List.lookup, beq_self_eq_true, cond_true, cond_false]
    congr 2
    rw [List.length_take]
    omega

/-- The 5-short-message store used by the C3 counterexample. -/
def mmFive : MemoryManager :=
  { messages := [{ role := "user", content := "aaaa" }, { role := "user", content := "aaaa" },
      { role := "user", content := "aaaa" }, { role := "user", content := "aaaa" },
      { role := "user", content := "aaaa" }]
    maxTokens := 1
    compressionThreshold := 1 / 2 }

set_option maxRecDepth 40000 in
/-- C3 counterexample: adding a sixth message pushes the estimate far above
`max_tokens * compression_threshold`, yet nothing is compressed — the list
stays the six original messages verbatim, all `compressed=false` (the claim
requires a synthetic compressed head) — because `_compress_history` returns
early below 10 messages. -/
theorem C3_counterexample :
    ((mmFive.maxTokens : ℚ) * mmFive.compressionThreshold <
        (MemoryManager.estimateTokens (mmFive.addMessage "user" "abcdefghijklmnopqrstuvwxyz") : ℚ)) ∧
      (mmFive.addMessage "user" "abcdefghijklmnopqrstuvwxyz").messages =
        appendedMessages mmFive "user" "abcdefghijklmnopqrstuvwxyz" [] ∧
      ((mmFive.addMessage "user" "abcdefghijklmnopqrstuvwxyz").messages.map
        (fun m => m.compressed)) = [false, false, false, false, false, false] := by
  have hres : mmFive.addMessage "user" "abcdefghijklmnopqrstuvwxyz" =
      { mmFive with
        messages := appendedMessages mmFive "user" "abcdefghijklmnopqrstuvwxyz" [] } := by
    unfold MemoryManager.addMessage
    dsimp only
    split
    · unfold MemoryManager.compressHistory
      split
      · rfl
      · rename_i hlen
        exact absurd (show (6 : Nat) < 10 by norm_num) hlen
    · rename_i hc
      exact absurd (show ((1 : Nat) : ℚ) * (1 / 2) < ((11 : Nat) : ℚ) by norm_num) hc
  refine ⟨?_, ?_, ?_⟩
  · rw [hres,
      show MemoryManager.estimateTokens
        { mmFive with
          messages := appendedMessages mmFive "user" "abcdefghijklmnopqrstuvwxyz" [] } = 11
        from rfl,
      show mmFive.maxTokens = 1 from rfl,
      show mmFive.compressionThreshold = 1 / 2 from rfl]
    norm_num
  · rw [hres]
  · rw [hres]
    rfl

/-- The 9-message store used by the C3 witness. -/
def mmNine : MemoryManager :=
  { messages := [{ role := "user", content := "abc" }, { role := "user", content := "abc" },
      { role := "user", content := "abc" }, { role := "user", content := "abc" },
      { role := "user", content := "abc" }, { role := "user", content := "abc" },
      { role := "user", content := "abc" }, { role := "user", content := "abc" },
      { role := "user", content := "abc" }]
    maxTokens := 10
    compressionThreshold := 1 / 2 }

set_option maxRecDepth 40000 in
/-- C3 witness: a concrete compression (the 10th message brings 35 chars ≈ 8
tokens, over the 10 × 0.5 = 5 token trigger). -/
theorem C3_compression_witness :
    (mmNine.addMessage "user" "abcdefgh").messages =
      MemoryManager.summaryMessage
          ((appendedMessages mmNine "user" "abcdefgh" []).take
            ((appendedMessages mmNine "user" "abcdefgh" []).length - 5)) ::
        (appendedMessages mmNine "user" "abcdefgh" []).drop
          ((appendedMessages mmNine "user" "abcdefgh" []).length - 5) :=
  (C3_compression mmNine "user" "abcdefgh" []
    (by
      rw [show (((appendedMessages mmNine "user" "abcdefgh" []).map
          (fun m => m.content.length)).sum / 4 : Nat) = 8 from rfl,
        show mmNine.maxTokens = 10 from rfl,
        show mmNine.compressionThreshold = 1 / 2 from rfl]
      norm_num)
    (by
      rw [show (appendedMessages mmNine "user" "abcdefgh" []).length = 10 from rfl])).1

/-! ## Claim C5: subagent exception containment -/

/-- C5: an exception raised while running a spawned subagent never
propagates: `on_llm_output` returns normally, a `SubagentCall` with status
`"error"` is appended to the trace, the `<subagent>` span is replaced by the
inline formatted error block, and `current_depth` is restored to its
pre-spawn value (the decrement runs in the `finally`). -/
theorem C5_subagent_exception_contained (maxDepth : Nat) (outcomes : Nat → SubRunOutcome)
    (st : SubagentState) (output : String) (m : AttrMatch) (e : String)
    (hdepth : st.currentDepth < maxDepth)
    (hm : subagentMatches output = [m])
    (herr : outcomes st.callTrace.length = .error e) :
    ∃ c : SubagentCall,
      (subagentOnLlmOutput maxDepth outcomes st output).2.callTrace = st.callTrace ++ [c] ∧
        c.status = "error" ∧
        (subagentOnLlmOutput maxDepth outcomes st output).2.currentDepth = st.currentDepth ∧
        (subagentOnLlmOutput maxDepth outcomes st output).1 =
          pyReplace output ⟨m.g0⟩ (formatResult c) := by
  unfold subagentOnLlmOutput
  rw [hm]
  dsimp only
  rw [if_neg (by omega)]
  dsimp only [List.foldl_cons, List.foldl_nil]
  rw [herr]
  unfold spawnSubagent
  dsimp only
  exact ⟨_, rfl, rfl, by omega, rfl⟩

/-- C5 witness: a concrete single-span output whose sub-run raises. -/
theorem C5_subagent_exception_contained_witness :
    ((0 : Nat) < 2) ∧
      subagentMatches "go <subagent name=\"S\">do thing</subagent> end" =
        [{ attr := "S".data, body := "do thing".data,
           g0 := "<subagent name=\"S\">do thing</subagent>".data }] ∧
      ∃ c : SubagentCall,
        (subagentOnLlmOutput 2 (fun _ => .error "boom") {}
            "go <subagent name=\"S\">do thing</subagent> end").2.callTrace = [] ++ [c] ∧
          c.status = "error" ∧
          (subagentOnLlmOutput 2 (fun _ => .error "boom") {}
              "go <subagent name=\"S\">do thing</subagent> end").2.currentDepth = 0 ∧
          (subagentOnLlmOutput 2 (fun _ => .error "boom") {}
              "go <subagent name=\"S\">do thing</subagent> end").1 =
            pyReplace "go <subagent name=\"S\">do thing</subagent> end"
              ⟨("<subagent name=\"S\">do thing</subagent>".data : List Char)⟩ (formatResult c) := by
  refine ⟨by decide, rfl, ?_⟩
  exact C5_subagent_exception_contained 2 (fun _ => .error "boom") {}
    "go <subagent name=\"S\">do thing</subagent> end"
    { attr := "S".data, body := "do thing".data,
      g0 := "<subagent name=\"S\">do thing</subagent>".data } "boom"
    (by decide) rfl rfl

/-! ## Claim C10: the depth-limit branch -/

/-- The two-identical-span output used by the C10 counterexample. -/
def doubleSpanOutput : String :=
  "A<subagent name=\"X\">t</subagent>B<subagent name=\"X\">t</subagent>C"

set_option maxRecDepth 40000 in
/-- C10 counterexample: at the depth limit with two textually identical
spans, `output.replace(matches[0].group(0), marker)` replaces BOTH
occurrences — the second span does not remain verbatim in the returned text
(the span text no longer occurs in it at all). -/
theorem C10_counterexample :
    (subagentOnLlmOutput 2 (fun _ => .error "e") { currentDepth := 2 } doubleSpanOutput).1 =
        "A[ERROR: Subagent depth limit reached (2)]B[ERROR: Subagent depth limit reached (2)]C" ∧
      ¬ ("<subagent name=\"X\">t</subagent>".data <:+:
        (subagentOnLlmOutput 2 (fun _ => .error "e") { currentDepth := 2 } doubleSpanOutput).1.data) := by
  constructor
  · rfl
  · rw [show (subagentOnLlmOutput 2 (fun _ => .error "e") { currentDepth := 2 }
        doubleSpanOutput).1 =
      "A[ERROR: Subagent depth limit reached (2)]B[ERROR: Subagent depth limit reached (2)]C"
      from rfl]
    decide

/-- C10 amended: at or above the depth limit, no subagent is spawned and no
`SubagentCall` is appended (the state is unchanged), and the returned text is
the output with EVERY occurrence of the first match's `group(0)` text
replaced by the depth-limit marker (Python `str.replace` replaces all
occurrences, so subsequent spans survive only when their text differs from
the first's). -/
theorem C10_depth_limit (maxDepth : Nat) (outcomes : Nat → SubRunOutcome)
    (st : SubagentState) (output : String) (m : AttrMatch) (rest : List AttrMatch)
    (h1 : maxDepth ≤ st.currentDepth)
    (h2 : subagentMatches output = m :: rest) :
    subagentOnLlmOutput maxDepth outcomes st output =
      (pyReplace output ⟨m.g0⟩ (depthLimitMarker maxDepth), st) := by
  unfold subagentOnLlmOutput
  rw [h2]
  dsimp only
  rw [if_pos h1]

/-- C10 witness for the amended theorem: one span at the depth limit. -/
theorem C10_depth_limit_witness :
    ((2 : Nat) ≤ 2) ∧
      subagentMatches "go <subagent name=\"S\">do thing</subagent> end" =
        [{ attr := "S".data, body := "do thing".data,
           g0 := "<subagent name=\"S\">do thing</subagent>".data }] ∧
      subagentOnLlmOutput 2 (fun _ => .error "e") { currentDepth := 2 }
          "go <subagent name=\"S\">do thing</subagent> end" =
        (pyReplace "go <subagent name=\"S\">do thing</subagent> end"
          ⟨("<subagent name=\"S\">do thing</subagent>".data : List Char)⟩ (depthLimitMarker 2),
          { currentDepth := 2 }) := by
  refine ⟨by decide, rfl, ?_⟩
  exact C10_depth_limit 2 (fun _ => .error "e") { currentDepth := 2 }
    "go <subagent name=\"S\">do thing</subagent> end"
    { attr := "S".data, body := "do thing".data,
      g0 := "<subagent name=\"S\">do thing</subagent>".data } []
    (by decide) rfl

/-! ## Lemmas for the note round-trip (claim C8) -/

theorem splitLinesL_ne_nil (s : List Char) : splitLinesL s ≠ [] := by
  cases s with
  | nil => simp [splitLinesL]
  | cons c t =>
    rw [splitLinesL]
    by_cases hc : c = '\n'
    · simp [hc]
    · rw [if_neg hc]
      cases splitLinesL t <;> simp

theorem splitLinesL_nl_cons (r : List Char) : splitLinesL ('\n' :: r) = [] :: splitLinesL r := by
  rw [splitLinesL, if_pos rfl]

theorem splitLinesL_append (c r : List Char) :
    splitLinesL (c ++ '\n' :: r) = splitLinesL c ++ splitLinesL r := by
  induction c with
  | nil => rw [List.nil_append, splitLinesL_nl_cons, splitLinesL, List.cons_append, List.nil_append]
  | cons d t ih =>
    rw [List.cons_append]
    by_cases hd : d = '\n'
    · subst hd
      rw [splitLinesL_nl_cons, splitLinesL_nl_cons, ih, List.cons_append]
    · rw [splitLinesL, if_neg hd, ih]
      rw [splitLinesL, if_neg hd]
      cases hsp : splitLinesL t with
      | nil => exact absurd hsp (splitLinesL_ne_nil t)
      | cons y ys => rw [List.cons_append, List.cons_append]

theorem splitLinesL_no_nl (s : List Char) (h : '\n' ∉ s) : splitLinesL s = [s] := by
  induction s with
  | nil => rfl
  | cons c t ih =>
    have hc : c ≠ '\n' := fun hc => h (hc ▸ List.mem_cons_self c t)
    rw [splitLinesL, if_neg hc, ih (fun hm => h (List.mem_cons_of_mem c hm))]

/-- One frontmatter-style line (no newline) followed by a newline and the
rest. -/
theorem splitLinesL_line (x r : List Char) (hx : '\n' ∉ x) :
    splitLinesL (x ++ '\n' :: r) = x :: splitLinesL r := by
  rw [splitLinesL_append, splitLinesL_no_nl x hx, List.cons_append, List.nil_append]

theorem splitLinesL_line2 (x y r : List Char) (hx : '\n' ∉ x) (hy : '\n' ∉ y) :
    splitLinesL (x ++ (y ++ '\n' :: r)) = (x ++ y) :: splitLinesL r := by
  rw [← List.append_assoc, splitLinesL_line (x ++ y) r (by
    intro hm
    rcases List.mem_append.mp hm with h | h
    · exact hx h
    · exact hy h)]

theorem splitLinesL_line3 (x y z r : List Char) (hx : '\n' ∉ x) (hy : '\n' ∉ y)
    (hz : '\n' ∉ z) :
    splitLinesL (x ++ (y ++ (z ++ '\n' :: r))) = (x ++ (y ++ z)) :: splitLinesL r := by
  rw [← List.append_assoc, ← List.append_assoc, splitLinesL_line ((x ++ y) ++ z) r (by
    intro hm
    rcases List.mem_append.mp hm with h | h
    · rcases List.mem_append.mp h with h' | h'
      · exact hx h'
      · exact hy h'
    · exact hz h), List.append_assoc]

theorem mem_of_mem_splitLinesL (s l : List Char) (c : Char) (hl : l ∈ splitLinesL s)
    (hc : c ∈ l) : c ∈ s := by
  induction s generalizing l with
  | nil =>
    simp [splitLinesL] at hl
    subst hl
    exact absurd hc (List.not_mem_nil c)
  | cons d t ih =>
    rw [splitLinesL] at hl
    by_cases hd : d = '\n'
    · rw [if_pos hd] at hl
      rcases List.mem_cons.mp hl with h | h
      · subst h; exact absurd hc (List.not_mem_nil c)
      · exact List.mem_cons_of_mem d (ih l h hc)
    · rw [if_neg hd] at hl
      cases hsp : splitLinesL t with
      | nil => exact absurd hsp (splitLinesL_ne_nil t)
      | cons y ys =>
        rw [hsp] at hl
        rcases List.mem_cons.mp hl with h | h
        · subst h
          rcases List.mem_cons.mp hc with h' | h'
          · exact h' ▸ List.mem_cons_self d t
          · exact List.mem_cons_of_mem d (ih y (hsp ▸ List.mem_cons_self y ys) h')
        · exact List.mem_cons_of_mem d (ih l (hsp ▸ List.mem_cons_of_mem y h) hc)

theorem dropWhile_eq_self_of_head (q : Char → Bool) (s : List Char)
    (h : ∀ c, s.head? = some c → q c = false) : s.dropWhile q = s := by
  cases s with
  | nil => rfl
  | cons c t => rw [List.dropWhile_cons, h c rfl]; simp

theorem pyStripL_eq_self_of_ends (s : List Char)
    (h1 : ∀ c, s.head? = some c → isPySpace c = false)
    (h2 : ∀ c, s.getLast? = some c → isPySpace c = false) : pyStripL s = s := by
  unfold pyStripL
  rw [dropWhile_eq_self_of_head isPySpace s h1,
    dropWhile_eq_self_of_head isPySpace s.reverse (by
      intro c hc
      rw [List.head?_reverse] at hc
      exact h2 c hc),
    List.reverse_reverse]

theorem dropWhile_append_of_all (q : Char → Bool) (pad t : List Char)
    (hpad : ∀ c ∈ pad, q c = true) : (pad ++ t).dropWhile q = t.dropWhile q := by
  induction pad with
  | nil => rfl
  | cons c p ih =>
    rw [List.cons_append, List.dropWhile_cons, hpad c (List.mem_cons_self c p)]
    exact ih (fun c' hc' => hpad c' (List.mem_cons_of_mem c hc'))

theorem pyStripL_pad (padL padR s : List Char)
    (hL : ∀ c ∈ padL, isPySpace c = true) (hR : ∀ c ∈ padR, isPySpace c = true) :
    pyStripL (padL ++ (s ++ padR)) = pyStripL s := by
  unfold pyStripL
  rw [dropWhile_append_of_all isPySpace padL (s ++ padR) hL]
  cases hds : s.dropWhile isPySpace with
  | nil =>
    have hall : ∀ c ∈ s, isPySpace c = true := List.dropWhile_eq_nil_iff.mp hds
    rw [dropWhile_append_of_all isPySpace s padR hall,
      List.dropWhile_eq_nil_iff.mpr hR]
  | cons d u =>
    have hne : s.dropWhile isPySpace ≠ [] := by rw [hds]; simp
    have h1 : (s ++ padR).dropWhile isPySpace = s.dropWhile isPySpace ++ padR := by
      rw [List.dropWhile_append, if_neg (by simpa using hne)]
    rw [h1, hds, List.reverse_append,
      dropWhile_append_of_all isPySpace padR.reverse (d :: u).reverse
        (fun c hc => hR c (List.mem_reverse.mp hc))]

theorem pySplitF_of_none (p t : List Char) (h : splitFirst p t = none) :
    ∀ f, pySplitF p f t = [t] := by
  intro f
  cases f with
  | zero => rfl
  | succ g => rw [pySplitF, h]

theorem pySplitF_of_some (p s pre post : List Char) (h : splitFirst p s = some (pre, post)) :
    ∀ f, 0 < f → pySplitF p f s = pre :: pySplitF p (f - 1) post := by
  intro f hf
  cases f with
  | zero => omega
  | succ g =>
    rw [pySplitF, h]
    rfl

theorem pySplitF_fuel (p : List Char) (hp : p ≠ []) :
    ∀ f s, s.length < f → pySplitF p f s = pySplitL p s := by
  intro f
  induction f using Nat.strong_induction_on with
  | _ f ih =>
    intro s hs
    cases hsf : splitFirst p s with
    | none => rw [pySplitF_of_none p s hsf, pySplitL, pySplitF_of_none p s hsf]
    | some pr =>
      obtain ⟨pre, post⟩ := pr
      have hdec := splitFirst_some_decomp p s pre post hsf
      have hplen : 0 < p.length := List.length_pos.mpr hp
      have hlen : post.length < s.length := by
        rw [hdec, List.length_append, List.length_append]
        omega
      have hf0 : 0 < f := by omega
      rw [pySplitF_of_some p s pre post hsf f hf0, pySplitL,
        pySplitF_of_some p s pre post hsf (s.length + 1) (by omega)]
      congr 1
      rw [ih (f - 1) (by omega) post (by omega),
        show s.length + 1 - 1 = s.length from rfl,
        ih s.length (by omega) post hlen]

/-- `line.split(marker)[1]` when the line is `marker ++ rest` and `rest`
holds no further occurrence. -/
theorem splitTail_of_shape (marker rest : List Char) (hm : marker ≠ [])
    (h : ¬ marker <:+: rest) :
    splitTail marker (marker ++ rest) = rest := by
  unfold splitTail pySplitL
  rw [pySplitF_of_some marker (marker ++ rest) [] rest
    (by
      rw [splitFirst_of_isPre marker (marker ++ rest) (List.prefix_append marker rest),
        List.drop_left])
    ((marker ++ rest).length + 1) (by omega)]
  rw [pySplitF_of_none marker rest (splitFirst_eq_none_of marker rest hm h)]
  rfl

theorem head_mem_of_isPre (d : Char) (q l : List Char) (h : (d :: q) <+: l) : d ∈ l := by
  obtain ⟨t, ht⟩ := h
  rw [← ht, List.cons_append]
  exact List.mem_cons_self d (q ++ t)

theorem startsWith_false_of_head (l : List Char) (d e : Char) (q : List Char)
    (hl : l.head? = some e) (hne : d ≠ e) : startsWithL l (d :: q) = false := by
  cases l with
  | nil => simp at hl
  | cons c t =>
    rw [List.head?_cons, Option.some_inj] at hl
    subst hl
    simp [startsWithL, List.cons_prefix_cons, hne]

theorem startsWith_false_of_notMem (l : List Char) (d : Char) (q : List Char)
    (h : d ∉ l) : startsWithL l (d :: q) = false := by
  rw [startsWithL, decide_eq_false_iff_not]
  intro hpre
  exact h (head_mem_of_isPre d q l hpre)

theorem containsL_eq_false (s sub : List Char) (h : ¬ sub <:+: s) :
    containsL s sub = false := by
  rw [containsL, decide_eq_false_iff_not]
  exact h

theorem containsL_eq_true (s sub : List Char) (h : sub <:+: s) :
    containsL s sub = true := by
  rw [containsL, decide_eq_true_eq]
  exact h

theorem mem_pyJoin (sep : String) (l : List String) (c : Char)
    (h : c ∈ (pyJoin sep l).data) : c ∈ sep.data ∨ ∃ t ∈ l, c ∈ t.data := by
  induction l with
  | nil => exact absurd h (List.not_mem_nil c)
  | cons t ts ih =>
    cases ts with
    | nil => exact Or.inr ⟨t, List.mem_cons_self t [], h⟩
    | cons u ts' =>
      rw [show pyJoin sep (t :: u :: ts') = t ++ sep ++ pyJoin sep (u :: ts') from rfl,
        String.data_append, String.data_append] at h
      rcases List.mem_append.mp h with h' | h'
      · rcases List.mem_append.mp h' with h'' | h''
        · exact Or.inr ⟨t, List.mem_cons_self t (u :: ts'), h''⟩
        · exact Or.inl h''
      · rcases ih h' with h'' | ⟨v, hv, hc⟩
        · exact Or.inl h''
        · exact Or.inr ⟨v, List.mem_cons_of_mem t hv, hc⟩

theorem head?_pyJoin (t : String) (ts : List String) (ht : t.data ≠ []) :
    (pyJoin ", " (t :: ts)).data.head? = t.data.head? := by
  cases ts with
  | nil => rfl
  | cons u ts' =>
    rw [show pyJoin ", " (t :: u :: ts') = t ++ ", " ++ pyJoin ", " (u :: ts') from rfl,
      String.data_append, String.data_append]
    obtain ⟨c, r, hc⟩ := List.exists_cons_of_ne_nil ht
    rw [hc, List.cons_append, List.cons_append, List.head?_cons, List.head?_cons]

theorem pyJoin_data_ne_nil (t : String) (ts : List String) (ht : t.data ≠ []) :
    (pyJoin ", " (t :: ts)).data ≠ [] := by
  cases ts with
  | nil => exact ht
  | cons u ts' =>
    rw [show pyJoin ", " (t :: u :: ts') = t ++ ", " ++ pyJoin ", " (u :: ts') from rfl,
      String.data_append, String.data_append]
    obtain ⟨c, r, hc⟩ := List.exists_cons_of_ne_nil ht
    rw [hc]
    simp

theorem getLast?_pyJoin (tags : List String)
    (h : ∀ t ∈ tags, t.data ≠ []) (hne : tags ≠ []) :
    ∃ t ∈ tags, (pyJoin ", " tags).data.getLast? = t.data.getLast? := by
  induction tags with
  | nil => exact absurd rfl hne
  | cons t ts ih =>
    cases ts with
    | nil => exact ⟨t, List.mem_cons_self t [], rfl⟩
    | cons u ts' =>
      obtain ⟨v, hv, hvl⟩ := ih (fun x hx => h x (List.mem_cons_of_mem t hx)) (by simp)
      refine ⟨v, List.mem_cons_of_mem t hv, ?_⟩
      rw [show pyJoin ", " (t :: u :: ts') = t ++ ", " ++ pyJoin ", " (u :: ts') from rfl,
        String.data_append, String.data_append, List.append_assoc,
        List.getLast?_append_of_ne_nil _ (by
          intro hnil
          rcases List.append_eq_nil.mp hnil with ⟨_, h2⟩
          exact pyJoin_data_ne_nil u ts' (h u (by simp)) h2),
        List.getLast?_append_of_ne_nil _ (pyJoin_data_ne_nil u ts' (h u (by simp)))]
      exact hvl

/-- A non-empty tag list whose entries are non-empty and space-trimmed joins
to a space-trimmed string. -/
theorem pyStripL_pyJoin (tags : List String)
    (h : ∀ t ∈ tags, t.data ≠ [] ∧
      (∀ c, t.data.head? = some c → isPySpace c = false) ∧
      (∀ c, t.data.getLast? = some c → isPySpace c = false)) :
    pyStripL (pyJoin ", " tags).data = (pyJoin ", " tags).data := by
  cases tags with
  | nil => rfl
  | cons t ts =>
    obtain ⟨hne, hh, _⟩ := h t (List.mem_cons_self t ts)
    obtain ⟨v, hv, hvl⟩ := getLast?_pyJoin (t :: ts) (fun x hx => (h x hx).1) (by simp)
    refine pyStripL_eq_self_of_ends _ ?_ ?_
    · intro c hc
      rw [head?_pyJoin t ts hne] at hc
      exact hh c hc
    · intro c hc
      rw [hvl] at hc
      exact (h v hv).2.2 c hc

theorem pySplitL_cons_of_not_pre (p : List Char) (hp : p ≠ []) (c : Char) (x : List Char)
    (hnp : ¬ p <+: (c :: x)) (y : List Char) (ys : List (List Char))
    (hx : pySplitL p x = y :: ys) : pySplitL p (c :: x) = (c :: y) :: ys := by
  cases hsf : splitFirst p x with
  | none =>
    rw [pySplitL, pySplitF_of_none p x hsf] at hx
    rw [List.cons.injEq] at hx
    obtain ⟨hy, hys⟩ := hx
    have hcx : splitFirst p (c :: x) = none := by
      rw [splitFirst, if_neg hnp, hsf]
    rw [pySplitL, pySplitF_of_none p (c :: x) hcx, hy, ← hys]
  | some pr =>
    obtain ⟨pre, post⟩ := pr
    have hplen : 0 < p.length := List.length_pos.mpr hp
    have hpost : post.length < x.length := by
      have := splitFirst_some_decomp p x pre post hsf
      rw [this, List.length_append, List.length_append]
      omega
    rw [pySplitL, pySplitF_of_some p x pre post hsf (x.length + 1) (by omega)] at hx
    rw [List.cons.injEq] at hx
    obtain ⟨hy, hys⟩ := hx
    have hcx : splitFirst p (c :: x) = some (c :: pre, post) := by
      rw [splitFirst, if_neg hnp, hsf]
    rw [pySplitL, pySplitF_of_some p (c :: x) (c :: pre) post hcx ((c :: x).length + 1)
      (by omega)]
    rw [hy, ← hys]
    congr 1
    rw [show (c :: x).length + 1 - 1 = x.length + 1 from rfl,
      show x.length + 1 - 1 = x.length from rfl,
      pySplitF_fuel p hp (x.length + 1) post (by omega),
      pySplitF_fuel p hp x.length post hpost]

/-- Splitting the comma-join of comma-free tags: the first piece is the first
tag, every later piece is its tag with the joining space in front. -/
theorem pySplit_pyJoin (t : String) (ts : List String)
    (h : ∀ u ∈ t :: ts, ',' ∉ u.data) :
    pySplitL [','] (pyJoin ", " (t :: ts)).data =
      t.data :: ts.map (fun u => ' ' :: u.data) := by
  induction ts generalizing t with
  | nil =>
    have hni : ¬ [','] <:+: t.data :=
      notInfix_of_head_notMem [','] t.data ',' rfl (h t (List.mem_cons_self t []))
    rw [show pyJoin ", " [t] = t from rfl, pySplitL,
      pySplitF_of_none [','] t.data (splitFirst_eq_none_of [','] t.data (by simp) hni),
      List.map_nil]
  | cons u ts' ih =>
    have hjoin : (pyJoin ", " (t :: u :: ts')).data =
        t.data ++ ([','] ++ (' ' :: (pyJoin ", " (u :: ts')).data)) := by
      rw [show pyJoin ", " (t :: u :: ts') = t ++ ", " ++ pyJoin ", " (u :: ts') from rfl,
        String.data_append, String.data_append]
      simp [List.append_assoc]
    have hsf : splitFirst [','] (pyJoin ", " (t :: u :: ts')).data =
        some (t.data, ' ' :: (pyJoin ", " (u :: ts')).data) := by
      rw [hjoin]
      exact splitFirst_append_of_noEarlier [','] t.data _
        (noEarlier_of_headNotMem [','] t.data _ ',' rfl (h t (by simp)))
    have hrec : pySplitL [','] (pyJoin ", " (u :: ts')).data =
        u.data :: ts'.map (fun v => ' ' :: v.data) :=
      ih u (fun v hv => h v (by
        rcases List.mem_cons.mp hv with h' | h'
        · exact h' ▸ (by simp)
        · simp [h']))
    have hcons : pySplitL [','] (' ' :: (pyJoin ", " (u :: ts')).data) =
        (' ' :: u.data) :: ts'.map (fun v => ' ' :: v.data) := by
      refine pySplitL_cons_of_not_pre [','] (by simp) ' ' _ ?_ _ _ hrec
      intro hpre
      have := (List.cons_prefix_cons.mp hpre).1
      simp at this
    have hlen : (' ' :: (pyJoin ", " (u :: ts')).data).length <
        (pyJoin ", " (t :: u :: ts')).data.length := by
      rw [hjoin, List.length_append]
      simp
      omega
    rw [pySplitL, pySplitF_of_some [','] _ _ _ hsf _ (by omega)]
    rw [pySplitF_fuel [','] (by simp) _ _ (by
      have := hlen
      omega), hcons, List.map_cons]

theorem pyStripL_space_cons (s : List Char) : pyStripL (' ' :: s) = pyStripL s := by
  have h := pyStripL_pad [' '] [] s (by intro c hc; simp at hc; simp [hc, isPySpace])
    (by intro c hc; simp at hc)
  simpa using h

/-- A line matching none of the five frontmatter branches leaves the scan
state unchanged. -/
theorem frontLine_noop (st : FrontState) (l : List Char)
    (h1 : startsWithL l "# ".data = false)
    (h2 : containsL l "**Type:**".data = false)
    (h3 : containsL l "**Tags:**".data = false)
    (h4 : containsL l "**Created:**".data = false)
    (h5 : containsL l "**Updated:**".data = false) :
    frontLine st l = st := by
  simp [frontLine, h1, h2, h3, h4, h5]

theorem frontLine_title (st : FrontState) (t : List Char) (hstrip : pyStripL t = t) :
    frontLine st ("# ".data ++ t) = { st with title := ⟨t⟩ } := by
  have hsw : startsWithL ("# ".data ++ t) "# ".data = true := by
    rw [startsWithL, decide_eq_true_eq]
    exact List.prefix_append _ _
  simp only [frontLine, hsw, if_true]
  rw [show ("# ".data ++ t).drop 2 = t from List.drop_left' rfl, hstrip]

theorem frontLine_type (st : FrontState) (nt : NoteType) :
    frontLine st ("**Type:** ".data ++ ((NoteType.value nt).data ++ "  ".data)) =
      { st with noteType := nt } := by
  cases nt <;> rfl

theorem frontLine_created (st : FrontState) (c : List Char) (hstar : '*' ∉ c) :
    frontLine st ("**Created:** ".data ++ (c ++ "  ".data)) =
      { st with createdAt := ⟨pyStripL c⟩ } := by
  have hrest : '*' ∉ c ++ "  ".data := by
    intro hm
    rcases List.mem_append.mp hm with h | h
    · exact hstar h
    · simp at h
  have h1 : startsWithL ("**Created:** ".data ++ (c ++ "  ".data)) "# ".data = false :=
    startsWith_false_of_head _ '#' '*' _ rfl (by decide)
  have h2 : containsL ("**Created:** ".data ++ (c ++ "  ".data)) "**Type:**".data = false :=
    containsL_eq_false _ _ (notInfix_of_blocks _ _ _ '*' (by decide) rfl hrest)
  have h3 : containsL ("**Created:** ".data ++ (c ++ "  ".data)) "**Tags:**".data = false :=
    containsL_eq_false _ _ (notInfix_of_blocks _ _ _ '*' (by decide) rfl hrest)
  have hline : "**Created:** ".data ++ (c ++ "  ".data) =
      "**Created:**".data ++ (' ' :: (c ++ "  ".data)) := rfl
  have hrest' : '*' ∉ ' ' :: (c ++ "  ".data) := by
    intro hm
    rcases List.mem_cons.mp hm with h | h
    · simp at h
    · exact hrest h
  have h4 : containsL ("**Created:** ".data ++ (c ++ "  ".data)) "**Created:**".data = true := by
    rw [hline]
    exact containsL_eq_true _ _ (List.prefix_append _ _).isInfix
  simp only [frontLine, h1, h2, h3, h4, Bool.false_eq_true, if_false, if_true]
  rw [hline, splitTail_of_shape _ _ (by decide)
    (notInfix_of_head_notMem "**Created:**".data (' ' :: (c ++ "  ".data)) '*' rfl hrest'),
    show (' ' :: (c ++ "  ".data) : List Char) = [' '] ++ (c ++ "  ".data) from rfl,
    pyStripL_pad [' '] "  ".data c (by decide) (by decide)]

theorem frontLine_updated (st : FrontState) (u : List Char) (hstar : '*' ∉ u) :
    frontLine st ("**Updated:** ".data ++ (u ++ "  ".data)) =
      { st with updatedAt := ⟨pyStripL u⟩ } := by
  have hrest : '*' ∉ u ++ "  ".data := by
    intro hm
    rcases List.mem_append.mp hm with h | h
    · exact hstar h
    · simp at h
  have h1 : startsWithL ("**Updated:** ".data ++ (u ++ "  ".data)) "# ".data = false :=
    startsWith_false_of_head _ '#' '*' _ rfl (by decide)
  have h2 : containsL ("**Updated:** ".data ++ (u ++ "  ".data)) "**Type:**".data = false :=
    containsL_eq_false _ _ (notInfix_of_blocks _ _ _ '*' (by decide) rfl hrest)
  have h3 : containsL ("**Updated:** ".data ++ (u ++ "  ".data)) "**Tags:**".data = false :=
    containsL_eq_false _ _ (notInfix_of_blocks _ _ _ '*' (by decide) rfl hrest)
  have h4 : containsL ("**Updated:** ".data ++ (u ++ "  ".data)) "**Created:**".data = false :=
    containsL_eq_false _ _ (notInfix_of_blocks _ _ _ '*' (by decide) rfl hrest)
  have hline : "**Updated:** ".data ++ (u ++ "  ".data) =
      "**Updated:**".data ++ (' ' :: (u ++ "  ".data)) := rfl
  have hrest' : '*' ∉ ' ' :: (u ++ "  ".data) := by
    intro hm
    rcases List.mem_cons.mp hm with h | h
    · simp at h
    · exact hrest h
  have h5 : containsL ("**Updated:** ".data ++ (u ++ "  ".data)) "**Updated:**".data = true := by
    rw [hline]
    exact containsL_eq_true _ _ (List.prefix_append _ _).isInfix
  simp only [frontLine, h1, h2, h3, h4, h5, Bool.false_eq_true, if_false, if_true]
  rw [hline, splitTail_of_shape _ _ (by decide)
    (notInfix_of_head_notMem "**Updated:**".data (' ' :: (u ++ "  ".data)) '*' rfl hrest'),
    show (' ' :: (u ++ "  ".data) : List Char) = [' '] ++ (u ++ "  ".data) from rfl,
    pyStripL_pad [' '] "  ".data u (by decide) (by decide)]

/-- The per-tag side conditions of the round-trip. -/
def TagSafe (t : String) : Prop :=
  t.data ≠ [] ∧ ',' ∉ t.data ∧ '*' ∉ t.data ∧ '-' ∉ t.data ∧ '\n' ∉ t.data ∧
    (∀ c, t.data.head? = some c → isPySpace c = false) ∧
    (∀ c, t.data.getLast? = some c → isPySpace c = false)

instance (t : String) : Decidable (TagSafe t) := by
  unfold TagSafe
  infer_instance

theorem frontLine_tags (st : FrontState) (tags : List String) (hne : tags ≠ [])
    (hsafe : ∀ t ∈ tags, TagSafe t) :
    frontLine st ("**Tags:** ".data ++ ((pyJoin ", " tags).data ++ "  ".data)) =
      { st with tags := tags } := by
  have hstarJ : '*' ∉ (pyJoin ", " tags).data := by
    intro hm
    rcases mem_pyJoin ", " tags '*' hm with h | ⟨t, ht, hc⟩
    · simp at h
    · exact (hsafe t ht).2.2.1 hc
  have hrest : '*' ∉ (pyJoin ", " tags).data ++ "  ".data := by
    intro hm
    rcases List.mem_append.mp hm with h | h
    · exact hstarJ h
    · simp at h
  have h1 : startsWithL ("**Tags:** ".data ++ ((pyJoin ", " tags).data ++ "  ".data))
      "# ".data = false :=
    startsWith_false_of_head _ '#' '*' _ rfl (by decide)
  have h2 : containsL ("**Tags:** ".data ++ ((pyJoin ", " tags).data ++ "  ".data))
      "**Type:**".data = false :=
    containsL_eq_false _ _ (notInfix_of_blocks _ _ _ '*' (by decide) rfl hrest)
  have hline : "**Tags:** ".data ++ ((pyJoin ", " tags).data ++ "  ".data) =
      "**Tags:**".data ++ (' ' :: ((pyJoin ", " tags).data ++ "  ".data)) := rfl
  have hrest' : '*' ∉ ' ' :: ((pyJoin ", " tags).data ++ "  ".data) := by
    intro hm
    rcases List.mem_cons.mp hm with h | h
    · simp at h
    · exact hrest h
  have h3 : containsL ("**Tags:** ".data ++ ((pyJoin ", " tags).data ++ "  ".data))
      "**Tags:**".data = true := by
    rw [hline]
    exact containsL_eq_true _ _ (List.prefix_append _ _).isInfix
  simp only [frontLine, h1, h2, h3, Bool.false_eq_true, if_false, if_true]
  rw [hline, splitTail_of_shape _ _ (by decide)
    (notInfix_of_head_notMem "**Tags:**".data
      (' ' :: ((pyJoin ", " tags).data ++ "  ".data)) '*' rfl hrest'),
    show (' ' :: ((pyJoin ", " tags).data ++ "  ".data) : List Char) =
      [' '] ++ ((pyJoin ", " tags).data ++ "  ".data) from rfl,
    pyStripL_pad [' '] "  ".data (pyJoin ", " tags).data (by decide) (by decide),
    pyStripL_pyJoin tags (fun t ht => ⟨(hsafe t ht).1, (hsafe t ht).2.2.2.2.2.1,
      (hsafe t ht).2.2.2.2.2.2⟩)]
  obtain ⟨t, ts, rfl⟩ := List.exists_cons_of_ne_nil hne
  rw [pySplit_pyJoin t ts (fun u hu => (hsafe u hu).2.1)]
  congr 1
  rw [List.map_cons, List.map_map]
  congr 1
  · rw [pyStripL_eq_self_of_ends t.data (hsafe t (by simp)).2.2.2.2.2.1
      (hsafe t (by simp)).2.2.2.2.2.2]
  · refine List.map_congr_left ?_ |>.trans (List.map_id ts)
    intro u hu
    show (⟨pyStripL (' ' :: u.data)⟩ : String) = id u
    rw [pyStripL_space_cons, pyStripL_eq_self_of_ends u.data
      (hsafe u (List.mem_cons_of_mem t hu)).2.2.2.2.2.1
      (hsafe u (List.mem_cons_of_mem t hu)).2.2.2.2.2.2]
    rfl

theorem notMem_append (c : Char) (x y : List Char) (hx : c ∉ x) (hy : c ∉ y) :
    c ∉ x ++ y := by
  intro hm
  rcases List.mem_append.mp hm with h | h
  · exact hx h
  · exact hy h

theorem notMem_cons (c d : Char) (x : List Char) (hne : c ≠ d) (hx : c ∉ x) :
    c ∉ d :: x := by
  intro hm
  rcases List.mem_cons.mp hm with h | h
  · exact hne h
  · exact hx h

/-- The markdown of a note, seen as `fmPart ++ "---" ++ rest`: everything in
the frontmatter before the first `---` separator (tags absent). -/
def fmPart (n : Note) : List Char :=
  "# ".data ++ (n.title.data ++ ('\n' :: ('\n' :: ("**Type:** ".data ++
    ((NoteType.value n.noteType).data ++ ("  ".data ++ ('\n' :: ("**Created:** ".data ++
    (n.createdAt.data ++ ("  ".data ++ ('\n' :: ("**Updated:** ".data ++
    (n.updatedAt.data ++ ("  ".data ++ ('\n' :: ('\n' :: []))))))))))))))))

/-- The frontmatter before the first `---` separator, tags present. -/
def fmPartT (n : Note) : List Char :=
  "# ".data ++ (n.title.data ++ ('\n' :: ('\n' :: ("**Type:** ".data ++
    ((NoteType.value n.noteType).data ++ ("  ".data ++ ('\n' :: ("**Created:** ".data ++
    (n.createdAt.data ++ ("  ".data ++ ('\n' :: ("**Updated:** ".data ++
    (n.updatedAt.data ++ ("  ".data ++ ('\n' :: ("**Tags:** ".data ++
    ((pyJoin ", " n.tags).data ++ ("  ".data ++ ('\n' :: ('\n' :: []))))))))))))))))))))

/-- Between the first and the second `---`: two newlines, the content, two
newlines. -/
def midPart (n : Note) : List Char :=
  '\n' :: ('\n' :: (n.content.data ++ ('\n' :: ('\n' :: []))))

/-- After the second `---`. -/
def tailPart (n : Note) : List Char :=
  '\n' :: ('\n' :: (if n.metadata ≠ [] then
    "## Metadata\n\n```json\n" ++ jsonDumpMeta n.metadata ++ "\n```\n" else "").data)

theorem toMarkdown_decomp (n : Note) (htags : n.tags = []) :
    n.toMarkdown.data =
      fmPart n ++ ("---".data ++ (midPart n ++ ("---".data ++ tailPart n))) := by
  rw [Note.toMarkdown, if_neg (by simp [htags])]
  simp only [String.data_append, List.append_assoc, List.cons_append, List.nil_append,
    List.append_nil, fmPart, midPart, tailPart]

theorem toMarkdown_decompT (n : Note) (htags : n.tags ≠ []) :
    n.toMarkdown.data =
      fmPartT n ++ ("---".data ++ (midPart n ++ ("---".data ++ tailPart n))) := by
  rw [Note.toMarkdown, if_pos htags]
  simp only [String.data_append, List.append_assoc, List.cons_append, List.nil_append,
    List.append_nil, fmPartT, midPart, tailPart]

theorem dash_notMem_fmPart (n : Note) (ht : '-' ∉ n.title.data)
    (hc : '-' ∉ n.createdAt.data) (hu : '-' ∉ n.updatedAt.data) :
    '-' ∉ fmPart n := by
  have hv : '-' ∉ (NoteType.value n.noteType).data := by cases n.noteType <;> decide
  exact notMem_append _ _ _ (by decide) (notMem_append _ _ _ ht (notMem_cons _ _ _ (by decide)
    (notMem_cons _ _ _ (by decide) (notMem_append _ _ _ (by decide) (notMem_append _ _ _ hv
    (notMem_append _ _ _ (by decide) (notMem_cons _ _ _ (by decide)
    (notMem_append _ _ _ (by decide) (notMem_append _ _ _ hc
    (notMem_append _ _ _ (by decide) (notMem_cons _ _ _ (by decide)
    (notMem_append _ _ _ (by decide) (notMem_append _ _ _ hu
    (notMem_append _ _ _ (by decide) (notMem_cons _ _ _ (by decide)
    (notMem_cons _ _ _ (by decide) (by decide)))))))))))))))))

theorem dash_notMem_fmPartT (n : Note) (ht : '-' ∉ n.title.data)
    (hc : '-' ∉ n.createdAt.data) (hu : '-' ∉ n.updatedAt.data)
    (htags : ∀ t ∈ n.tags, TagSafe t) :
    '-' ∉ fmPartT n := by
  have hv : '-' ∉ (NoteType.value n.noteType).data := by cases n.noteType <;> decide
  have hj : '-' ∉ (pyJoin ", " n.tags).data := by
    intro hm
    rcases mem_pyJoin ", " n.tags '-' hm with h | ⟨t, hmem, hch⟩
    · simp at h
    · exact (htags t hmem).2.2.2.1 hch
  exact notMem_append _ _ _ (by decide) (notMem_append _ _ _ ht (notMem_cons _ _ _ (by decide)
    (notMem_cons _ _ _ (by decide) (notMem_append _ _ _ (by decide) (notMem_append _ _ _ hv
    (notMem_append _ _ _ (by decide) (notMem_cons _ _ _ (by decide)
    (notMem_append _ _ _ (by decide) (notMem_append _ _ _ hc
    (notMem_append _ _ _ (by decide) (notMem_cons _ _ _ (by decide)
    (notMem_append _ _ _ (by decide) (notMem_append _ _ _ hu
    (notMem_append _ _ _ (by decide) (notMem_cons _ _ _ (by decide)
    (notMem_append _ _ _ (by decide) (notMem_append _ _ _ hj
    (notMem_append _ _ _ (by decide) (notMem_cons _ _ _ (by decide)
    (notMem_cons _ _ _ (by decide) (by decide)))))))))))))))))))))

theorem dash_notMem_midPart (n : Note) (h : '-' ∉ n.content.data) : '-' ∉ midPart n :=
  notMem_cons _ _ _ (by decide) (notMem_cons _ _ _ (by decide)
    (notMem_append _ _ _ h (notMem_cons _ _ _ (by decide)
      (notMem_cons _ _ _ (by decide) (by decide)))))

set_option maxHeartbeats 1000000 in
/-- The `content.split('---')` of a round-tripped markdown starts with the
frontmatter piece and the mid piece. -/
theorem pySplit_toMarkdown (fm : List Char) (n : Note)
    (hdecomp : n.toMarkdown.data =
      fm ++ ("---".data ++ (midPart n ++ ("---".data ++ tailPart n))))
    (hfm : '-' ∉ fm) (hcon : '-' ∉ n.content.data) :
    ∃ junk, pySplitL "---".data n.toMarkdown.data = fm :: midPart n :: junk := by
  have hsf1 : splitFirst "---".data n.toMarkdown.data =
      some (fm, midPart n ++ ("---".data ++ tailPart n)) := by
    rw [hdecomp]
    exact splitFirst_append_of_noEarlier _ _ _
      (noEarlier_of_headNotMem _ _ _ '-' rfl hfm)
  have hsf2 : splitFirst "---".data (midPart n ++ ("---".data ++ tailPart n)) =
      some (midPart n, tailPart n) :=
    splitFirst_append_of_noEarlier _ _ _
      (noEarlier_of_headNotMem _ _ _ '-' rfl (dash_notMem_midPart n hcon))
  have hlen : 0 < n.toMarkdown.data.length := by
    rw [hdecomp]
    simp
  refine ⟨pySplitF "---".data (n.toMarkdown.data.length - 1) (tailPart n), ?_⟩
  rw [pySplitL, pySplitF_of_some _ _ _ _ hsf1 _ (by omega),
    pySplitF_of_some _ _ _ _ hsf2 _ (by omega),
    show n.toMarkdown.data.length + 1 - 1 - 1 = n.toMarkdown.data.length - 1 by omega]

/-- Strip of the mid piece recovers the content. -/
theorem pyStripL_midPart (n : Note)
    (h1 : ∀ c, n.content.data.head? = some c → isPySpace c = false)
    (h2 : ∀ c, n.content.data.getLast? = some c → isPySpace c = false) :
    pyStripL (midPart n) = n.content.data := by
  rw [show midPart n = ['\n', '\n'] ++ (n.content.data ++ ['\n', '\n']) from rfl,
    pyStripL_pad _ _ _ (by decide) (by decide)]
  exact pyStripL_eq_self_of_ends _ h1 h2


/-- The metadata block appended after the final `---` of `to_markdown`. -/
def tailMeta (n : Note) : String :=
  if n.metadata ≠ [] then
    "## Metadata\n\n```json\n" ++ jsonDumpMeta n.metadata ++ "\n```\n" else ""

/-- The frontmatter lines of `to_markdown` when the note has no tags. -/
def fmLines (n : Note) : List (List Char) :=
  [("# ".data ++ n.title.data), [],
   ("**Type:** ".data ++ ((NoteType.value n.noteType).data ++ "  ".data)),
   ("**Created:** ".data ++ (n.createdAt.data ++ "  ".data)),
   ("**Updated:** ".data ++ (n.updatedAt.data ++ "  ".data)),
   [], "---".data, []]

/-- The frontmatter lines of `to_markdown` when the note has tags. -/
def fmLinesT (n : Note) : List (List Char) :=
  [("# ".data ++ n.title.data), [],
   ("**Type:** ".data ++ ((NoteType.value n.noteType).data ++ "  ".data)),
   ("**Created:** ".data ++ (n.createdAt.data ++ "  ".data)),
   ("**Updated:** ".data ++ (n.updatedAt.data ++ "  ".data)),
   ("**Tags:** ".data ++ ((pyJoin ", " n.tags).data ++ "  ".data)),
   [], "---".data, []]

theorem splitLines_toMarkdown (n : Note) (htags0 : n.tags = [])
    (ht : '\n' ∉ n.title.data) (hcn : '\n' ∉ n.createdAt.data)
    (hun : '\n' ∉ n.updatedAt.data) :
    splitLinesL n.toMarkdown.data =
      fmLines n ++ (splitLinesL n.content.data ++
        ([] :: ("---".data :: ([] :: splitLinesL (tailMeta n).data)))) := by
  have hv : '\n' ∉ (NoteType.value n.noteType).data := by cases n.noteType <;> decide
  have hdata : n.toMarkdown.data =
      "# ".data ++ (n.title.data ++ ('\n' :: ('\n' :: ("**Type:** ".data ++ ((NoteType.value
      n.noteType).data ++ ("  ".data ++ ('\n' :: ("**Created:** ".data ++
      (n.createdAt.data ++ ("  ".data ++ ('\n' :: ("**Updated:** ".data ++
      (n.updatedAt.data ++ ("  ".data ++ ('\n' :: ('\n' :: ("---".data ++ ('\n' ::
      ('\n' :: (n.content.data ++ ('\n' :: ('\n' :: ("---".data ++ ('\n' :: ('\n' ::
      ((tailMeta n).data)))))))))))))))))))))))))) := by
    rw [Note.toMarkdown, if_neg (by simp [htags0])]
    simp only [String.data_append, List.append_assoc, List.cons_append, List.nil_append,
      List.append_nil, tailMeta]
  rw [hdata,
    splitLinesL_line2 "# ".data n.title.data _ (by decide) ht,
    splitLinesL_nl_cons,
    splitLinesL_line3 "**Type:** ".data (NoteType.value n.noteType).data "  ".data _
      (by decide) hv (by decide),
    splitLinesL_line3 "**Created:** ".data n.createdAt.data "  ".data _
      (by decide) hcn (by decide),
    splitLinesL_line3 "**Updated:** ".data n.updatedAt.data "  ".data _
      (by decide) hun (by decide),
    splitLinesL_nl_cons,
    splitLinesL_line "---".data _ (by decide),
    splitLinesL_nl_cons,
    splitLinesL_append n.content.data _,
    splitLinesL_nl_cons,
    splitLinesL_line "---".data _ (by decide),
    splitLinesL_nl_cons]
  simp [fmLines]

theorem splitLines_toMarkdownT (n : Note) (htags0 : n.tags ≠ [])
    (hjn : '\n' ∉ (pyJoin ", " n.tags).data)
    (ht : '\n' ∉ n.title.data) (hcn : '\n' ∉ n.createdAt.data)
    (hun : '\n' ∉ n.updatedAt.data) :
    splitLinesL n.toMarkdown.data =
      fmLinesT n ++ (splitLinesL n.content.data ++
        ([] :: ("---".data :: ([] :: splitLinesL (tailMeta n).data)))) := by
  have hv : '\n' ∉ (NoteType.value n.noteType).data := by cases n.noteType <;> decide
  have hdata : n.toMarkdown.data =
      "# ".data ++ (n.title.data ++ ('\n' :: ('\n' :: ("**Type:** ".data ++ ((NoteType.value
      n.noteType).data ++ ("  ".data ++ ('\n' :: ("**Created:** ".data ++
      (n.createdAt.data ++ ("  ".data ++ ('\n' :: ("**Updated:** ".data ++
      (n.updatedAt.data ++ ("  ".data ++ ('\n' :: ("**Tags:** ".data ++ ((pyJoin ", "
      n.tags).data ++ ("  ".data ++ ('\n' :: ('\n' :: ("---".data ++ ('\n' :: ('\n' ::
      (n.content.data ++ ('\n' :: ('\n' :: ("---".data ++ ('\n' :: ('\n' :: ((tailMeta
      n).data)))))))))))))))))))))))))))))) := by
    rw [Note.toMarkdown, if_pos htags0]
    simp only [String.data_append, List.append_assoc, List.cons_append, List.nil_append,
      List.append_nil, tailMeta]
  rw [hdata,
    splitLinesL_line2 "# ".data n.title.data _ (by decide) ht,
    splitLinesL_nl_cons,
    splitLinesL_line3 "**Type:** ".data (NoteType.value n.noteType).data "  ".data _
      (by decide) hv (by decide),
    splitLinesL_line3 "**Created:** ".data n.createdAt.data "  ".data _
      (by decide) hcn (by decide),
    splitLinesL_line3 "**Updated:** ".data n.updatedAt.data "  ".data _
      (by decide) hun (by decide),
    splitLinesL_line3 "**Tags:** ".data (pyJoin ", " n.tags).data "  ".data _
      (by decide) hjn (by decide),
    splitLinesL_nl_cons,
    splitLinesL_line "---".data _ (by decide),
    splitLinesL_nl_cons,
    splitLinesL_append n.content.data _,
    splitLinesL_nl_cons,
    splitLinesL_line "---".data _ (by decide),
    splitLinesL_nl_cons]
  simp [fmLinesT]

theorem frontLine_content_noop (con : List Char) (hh : '#' ∉ con) (hs : '*' ∉ con)
    (l : List Char) (hl : l ∈ splitLinesL con) (st : FrontState) : frontLine st l = st := by
  have hhl : '#' ∉ l := fun hm => hh (mem_of_mem_splitLinesL con l '#' hl hm)
  have hsl : '*' ∉ l := fun hm => hs (mem_of_mem_splitLinesL con l '*' hl hm)
  exact frontLine_noop st l (startsWith_false_of_notMem l '#' [' '] hhl)
    (containsL_eq_false _ _ (notInfix_of_head_notMem "**Type:**".data l '*' rfl hsl))
    (containsL_eq_false _ _ (notInfix_of_head_notMem "**Tags:**".data l '*' rfl hsl))
    (containsL_eq_false _ _ (notInfix_of_head_notMem "**Created:**".data l '*' rfl hsl))
    (containsL_eq_false _ _ (notInfix_of_head_notMem "**Updated:**".data l '*' rfl hsl))

set_option maxHeartbeats 1000000 in
/-- C8 (amended): the `to_markdown`/`from_markdown` round trip recovers the
title, note type, tags and content of every note whose fields avoid the
markdown delimiters: the title is newline- and dash-free and strip-fixed;
the timestamps are newline-, dash- and star-free; every tag is `TagSafe`;
and the content is dash-, hash- and star-free and neither starts nor ends
with Python whitespace. -/
theorem C8_roundTrip (now q : String) (n : Note)
    (ht_nl : '\n' ∉ n.title.data) (ht_dash : '-' ∉ n.title.data)
    (ht_strip : pyStripL n.title.data = n.title.data)
    (hc_nl : '\n' ∉ n.createdAt.data) (hc_dash : '-' ∉ n.createdAt.data)
    (hc_star : '*' ∉ n.createdAt.data)
    (hu_nl : '\n' ∉ n.updatedAt.data) (hu_dash : '-' ∉ n.updatedAt.data)
    (hu_star : '*' ∉ n.updatedAt.data)
    (htags : ∀ t ∈ n.tags, TagSafe t)
    (hcon_dash : '-' ∉ n.content.data) (hcon_hash : '#' ∉ n.content.data)
    (hcon_star : '*' ∉ n.content.data)
    (hcon_h : ∀ c, n.content.data.head? = some c → isPySpace c = false)
    (hcon_l : ∀ c, n.content.data.getLast? = some c → isPySpace c = false) :
    (Note.fromMarkdown now q n.toMarkdown).title = n.title ∧
    (Note.fromMarkdown now q n.toMarkdown).noteType = n.noteType ∧
    (Note.fromMarkdown now q n.toMarkdown).tags = n.tags ∧
    (Note.fromMarkdown now q n.toMarkdown).content = n.content := by
  have hnil : ∀ st : FrontState, frontLine st [] = st := fun st => rfl
  have hsep : ∀ st : FrontState, frontLine st "---".data = st := fun st => rfl
  by_cases htag0 : n.tags = []
  · obtain ⟨junk, hparts⟩ := pySplit_toMarkdown (fmPart n) n (toMarkdown_decomp n htag0)
      (dash_notMem_fmPart n ht_dash hc_dash hu_dash) hcon_dash
    have hlines := splitLines_toMarkdown n htag0 ht_nl hc_nl hu_nl
    have htake : (fmLines n ++ (splitLinesL n.content.data ++
        ([] :: ("---".data :: ([] :: splitLinesL (tailMeta n).data))))).take 10 =
        fmLines n ++ (splitLinesL n.content.data ++
          ([] :: ("---".data :: ([] :: splitLinesL (tailMeta n).data)))).take 2 := rfl
    simp only [Note.fromMarkdown]
    rw [hlines, hparts, htake]
    dsimp only
    rw [pyStripL_midPart n hcon_h hcon_l, List.foldl_append]
    simp only [fmLines, List.foldl_cons, List.foldl_nil]
    rw [frontLine_title _ _ ht_strip]
    simp only [hnil, hsep]
    rw [frontLine_type, frontLine_created _ _ hc_star, frontLine_updated _ _ hu_star]
    cases hsc : splitLinesL n.content.data with
    | nil => exact absurd hsc (splitLinesL_ne_nil _)
    | cons c0 ct =>
      have hm0 : c0 ∈ splitLinesL n.content.data := by
        rw [hsc]; exact List.mem_cons_self _ _
      cases ct with
      | nil =>
        rw [show ((c0 :: ([] : List (List Char))) ++
            ([] :: ("---".data :: ([] :: splitLinesL (tailMeta n).data)))).take 2 =
            [c0, []] from rfl]
        simp only [List.foldl_cons, List.foldl_nil]
        rw [frontLine_content_noop n.content.data hcon_hash hcon_star c0 hm0]
        simp only [hnil]
        exact ⟨trivial, trivial, htag0.symm, trivial⟩
      | cons c1 ct2 =>
        have hm1 : c1 ∈ splitLinesL n.content.data := by
          rw [hsc]; exact List.mem_cons_of_mem _ (List.mem_cons_self _ _)
        rw [show ((c0 :: c1 :: ct2) ++
            ([] :: ("---".data :: ([] :: splitLinesL (tailMeta n).data)))).take 2 =
            [c0, c1] from rfl]
        simp only [List.foldl_cons, List.foldl_nil]
        rw [frontLine_content_noop n.content.data hcon_hash hcon_star c0 hm0,
          frontLine_content_noop n.content.data hcon_hash hcon_star c1 hm1]
        exact ⟨rfl, rfl, htag0.symm, trivial⟩
  · have hjn : '\n' ∉ (pyJoin ", " n.tags).data := by
      intro hm
      rcases mem_pyJoin ", " n.tags '\n' hm with h | ⟨t, ht, hch⟩
      · simp at h
      · exact (htags t ht).2.2.2.2.1 hch
    obtain ⟨junk, hparts⟩ := pySplit_toMarkdown (fmPartT n) n (toMarkdown_decompT n htag0)
      (dash_notMem_fmPartT n ht_dash hc_dash hu_dash htags) hcon_dash
    have hlines := splitLines_toMarkdownT n htag0 hjn ht_nl hc_nl hu_nl
    have htake : (fmLinesT n ++ (splitLinesL n.content.data ++
        ([] :: ("---".data :: ([] :: splitLinesL (tailMeta n).data))))).take 10 =
        fmLinesT n ++ (splitLinesL n.content.data ++
          ([] :: ("---".data :: ([] :: splitLinesL (tailMeta n).data)))).take 1 := rfl
    simp only [Note.fromMarkdown]
    rw [hlines, hparts, htake]
    dsimp only
    rw [pyStripL_midPart n hcon_h hcon_l, List.foldl_append]
    simp only [fmLinesT, List.foldl_cons, List.foldl_nil]
    rw [frontLine_title _ _ ht_strip]
    simp only [hnil, hsep]
    rw [frontLine_type, frontLine_created _ _ hc_star, frontLine_updated _ _ hu_star,
      frontLine_tags _ n.tags htag0 htags]
    cases hsc : splitLinesL n.content.data with
    | nil => exact absurd hsc (splitLinesL_ne_nil _)
    | cons c0 ct =>
      have hm0 : c0 ∈ splitLinesL n.content.data := by
        rw [hsc]; exact List.mem_cons_self _ _
      rw [show ((c0 :: ct) ++
          ([] :: ("---".data :: ([] :: splitLinesL (tailMeta n).data)))).take 1 =
          [c0] from rfl]
      simp only [List.foldl_cons, List.foldl_nil]
      rw [frontLine_content_noop n.content.data hcon_hash hcon_star c0 hm0]
      exact ⟨rfl, rfl, rfl, trivial⟩


/-- A note whose content contains the `---` delimiter. -/
def noteDashContent : Note :=
  { title := "T", content := "a---b", noteType := NoteType.finding, path := "p",
    tags := [], metadata := [], createdAt := "c", updatedAt := "u" }

set_option maxRecDepth 100000 in
/-- C8, counterexample to the claim as stated: for the note with content
`a---b`, `from_markdown` of `to_markdown` truncates the content at the first
`---` inside it, returning content `a` instead of `a---b`. -/
theorem C8_counterexample :
    (Note.fromMarkdown "now" "p" noteDashContent.toMarkdown).content = "a" ∧
    noteDashContent.content = "a---b" ∧
    (Note.fromMarkdown "now" "p" noteDashContent.toMarkdown).content ≠
      noteDashContent.content := by
  have h : noteDashContent.toMarkdown =
      "# T\n\n**Type:** finding  \n**Created:** c  \n**Updated:** u  \n\n---\n\na---b\n\n---\n\n" :=
    rfl
  rw [h]
  exact ⟨rfl, rfl, by decide⟩

/-- A delimiter-safe note used to witness the amended round trip. -/
def noteSafe : Note :=
  { title := "My Note", content := "hello world", noteType := NoteType.decision,
    path := "notes/my.md", tags := ["alpha", "beta"], metadata := [],
    createdAt := "2024.01.01T10:00", updatedAt := "2024.01.02T11:30" }

theorem C8_roundTrip_witness :
    (Note.fromMarkdown "2025" "q" noteSafe.toMarkdown).title = noteSafe.title ∧
    (Note.fromMarkdown "2025" "q" noteSafe.toMarkdown).noteType = noteSafe.noteType ∧
    (Note.fromMarkdown "2025" "q" noteSafe.toMarkdown).tags = noteSafe.tags ∧
    (Note.fromMarkdown "2025" "q" noteSafe.toMarkdown).content = noteSafe.content :=
  C8_roundTrip "2025" "q" noteSafe (by decide) (by decide) rfl
    (by decide) (by decide) (by decide)
    (by decide) (by decide) (by decide)
    (by
      intro t ht
      rcases List.mem_cons.mp ht with rfl | ht2
      · exact ⟨by decide, by decide, by decide, by decide, by decide,
          fun c hc => by cases hc; rfl, fun c hc => by cases hc; rfl⟩
      · rcases List.mem_cons.mp ht2 with rfl | ht3
        · exact ⟨by decide, by decide, by decide, by decide, by decide,
            fun c hc => by cases hc; rfl, fun c hc => by cases hc; rfl⟩
        · exact absurd ht3 (List.not_mem_nil t))
    (by decide) (by decide) (by decide)
    (fun c hc => by cases hc; rfl) (fun c hc => by cases hc; rfl)

end Confucius
